import Mathlib

/-!
Verification development for the file-search preparation tool (rag.py).

The Python code is shallowly embedded: strings are Lean `String`s (the
character-level functions work on `List Char` and are wrapped at the
boundary), the local JSON ledger is an association list with the insertion
order of a Python `dict`, and the remote service (google.genai client) is
an explicit environment of oracles returning `Except`, where
`Except.error` models a raised Python exception.  Observable side effects
(remote calls, state saves) are returned as explicit data.
-/

namespace Rag

/-- A Python value handed to `_is_valid_file_id`.  The function only
distinguishes strings from everything else, via `isinstance(file_ref,
str)`, so non-strings are collapsed into one constructor. -/
inductive PyValue where
  | str (s : String)
  | other
deriving DecidableEq, Repr

/-- Membership in the regex character class `[a-z0-9-]`. -/
def isIdChar (c : Char) : Bool :=
  ('a' ≤ c && c ≤ 'z') || ('0' ≤ c && c ≤ '9') || c == '-'

/-- A nonempty run of `[a-z0-9-]` characters: what `[a-z0-9-]+` consumes. -/
def idBody (l : List Char) : Bool :=
  !l.isEmpty && l.all isIdChar

/-- Truthiness of Python `re.match(r"^[a-z0-9-]+$", s)`.  In Python,
`$` matches at the end of the string or just before a newline at the end
of the string, so `"abc\n"` yields a match.  `re.match` anchors only at
the start. -/
def pyMatchId (l : List Char) : Bool :=
  idBody l ||
    (match l.getLast? with
     | some c => c == '\n' && idBody l.dropLast
     | none => false)

/-- `file_ref.split("/", 1)[1]`: everything after the first `'/'`.
All call sites have already checked `startswith("files/")`, so a slash is
present and the indexing cannot fail. -/
def splitFirstSlashTail (l : List Char) : List Char :=
  (l.dropWhile (fun c => c != '/')).drop 1

/-- `FileSearchTool._is_valid_file_id` (rag.py lines 203-215):
accept `files/<id>` where `<id>` is nonempty, at most 40 characters, and
matches `re.match(r"^[a-z0-9-]+$", ...)` with Python semantics. -/
def is_valid_file_id (v : PyValue) : Bool :=
  match v with
  | .other => false
  | .str s =>
    let l := s.toList
    if l.take 6 = "files/".toList then
      let file_id := splitFirstSlashTail l
      if file_id.isEmpty then false
      else if file_id.length > 40 then false
      else pyMatchId file_id
    else false

/-- Modelled from the spec: the identifier-validity predicate as worded in
the spec, reading `^[a-z0-9-]{1,40}$` as an exact (full) match on the id
portion after the `files/` prefix.  Used only to compare against the
code's `is_valid_file_id`. -/
def spec_valid_file_id (s : String) : Bool :=
  let l := s.toList
  decide (l.take 6 = "files/".toList) &&
    (let fid := l.drop 6
     !fid.isEmpty && fid.length ≤ 40 && fid.all isIdChar)

theorem splitFirstSlashTail_files (t : List Char) :
    splitFirstSlashTail ("files/".toList ++ t) = t := by
  simp [splitFirstSlashTail, List.dropWhile]

theorem take6_eq_iff (l : List Char) :
    l.take 6 = "files/".toList ↔ ∃ t, l = "files/".toList ++ t := by
  constructor
  · intro h
    exact ⟨l.drop 6, by rw [← h]; exact (List.take_append_drop 6 l).symm⟩
  · rintro ⟨t, rfl⟩
    rfl

theorem mem_dropLast_of_ne_last {α : Type} {a b : α} :
    ∀ {l : List α}, a ∈ l → l.getLast? = some b → a ≠ b → a ∈ l.dropLast
  | [], h, _, _ => absurd h (List.not_mem_nil a)
  | [x], h, hl, hne => by
    simp only [List.mem_singleton] at h
    simp only [List.getLast?_singleton, Option.some.injEq] at hl
    exact absurd (h.trans hl) hne
  | x :: y :: t, h, hl, hne => by
    rw [List.getLast?_cons_cons] at hl
    rw [List.dropLast_cons₂]
    rcases List.mem_cons.mp h with rfl | h2
    · exact List.mem_cons_self _ _
    · exact List.mem_cons_of_mem _ (mem_dropLast_of_ne_last h2 hl hne)

/-- C10: `_is_valid_file_id` returns False for every non-string input, and
for every string whose id portion (after `files/`) contains a further
slash, so embedded path separators never pass validation. -/
theorem valid_file_id_rejects_nonstring_and_slash :
    is_valid_file_id .other = false ∧
    ∀ (s : String) (idl : List Char), s.toList = "files/".toList ++ idl →
      '/' ∈ idl → is_valid_file_id (.str s) = false := by
  refine ⟨rfl, ?_⟩
  intro s idl hs hm
  unfold is_valid_file_id
  simp only
  rw [hs, if_pos ((take6_eq_iff _).mpr ⟨idl, rfl⟩), splitFirstSlashTail_files]
  have hall : idl.all isIdChar = false := by
    rw [List.all_eq_false]
    exact ⟨'/', hm, by decide⟩
  have hbody : idBody idl = false := by
    simp [idBody, hall]
  split
  · rfl
  · split
    · rfl
    · rw [pyMatchId, hbody]
      cases hgl : idl.getLast? with
      | none => rfl
      | some c =>
        simp only [Bool.false_or]
        by_cases hc : c = '\n'
        · subst hc
          have hmem : '/' ∈ idl.dropLast :=
            mem_dropLast_of_ne_last hm hgl (by decide)
          have : idl.dropLast.all isIdChar = false := by
            rw [List.all_eq_false]
            exact ⟨'/', hmem, by decide⟩
          simp [idBody, this]
        · simp [hc]

/-- C10 witness: the non-string case and the concrete reference
`"files/abc/def"` are both rejected. -/
theorem valid_file_id_rejects_nonstring_and_slash_witness :
    is_valid_file_id .other = false ∧
    is_valid_file_id (.str "files/abc/def") = false :=
  ⟨valid_file_id_rejects_nonstring_and_slash.1,
   valid_file_id_rejects_nonstring_and_slash.2 "files/abc/def" "abc/def".toList
     (by decide) (by decide)⟩

/-- Index of the last character satisfying `p`, or `none` (`str.rfind`). -/
def rfindIdx (p : Char → Bool) : List Char → Option Nat
  | [] => none
  | c :: rest =>
    match rfindIdx p rest with
    | some i => some (i + 1)
    | none => if p c then some 0 else none

/-- CPython `posixpath.splitext`: split at the last dot that comes after
the last path separator and after at least one non-dot character of the
base name (so `".bashrc"` has no extension). -/
def splitextList (l : List Char) : List Char × List Char :=
  match rfindIdx (fun c => c == '.') l with
  | none => (l, [])
  | some di =>
    let si : Nat :=
      match rfindIdx (fun c => c == '/') l with
      | some s => s + 1
      | none => 0
    if si ≤ di then
      let mid := (l.take di).drop si
      if mid.any (fun c => c != '.') then (l.take di, l.drop di) else (l, [])
    else (l, [])

/-- Membership in `[a-z0-9]` (the characters kept by the slug regex). -/
def isLowerAlnum (c : Char) : Bool :=
  ('a' ≤ c && c ≤ 'z') || ('0' ≤ c && c ≤ '9')

/-- Worker for `slugify`.  The flag records whether we are inside a run
of non-`[a-z0-9]` characters whose single replacement dash has already
been emitted. -/
def slugifyAux : Bool → List Char → List Char
  | _, [] => []
  | inRun, c :: rest =>
    if isLowerAlnum c then c :: slugifyAux false rest
    else if inRun then slugifyAux true rest
    else '-' :: slugifyAux true rest

/-- `re.sub(r"[^a-z0-9]+", "-", s)`: every maximal run of characters
outside `[a-z0-9]` becomes a single dash. -/
def slugify (l : List Char) : List Char :=
  slugifyAux false l

/-- `s.lstrip(c)` for a single character. -/
def lstripChar (c : Char) (l : List Char) : List Char :=
  l.dropWhile (fun d => d == c)

/-- `s.rstrip(c)` for a single character. -/
def rstripChar (c : Char) (l : List Char) : List Char :=
  (l.reverse.dropWhile (fun d => d == c)).reverse

/-- `encode("ascii", "ignore")`: keep exactly the code points below 128. -/
def asciiIgnore (l : List Char) : List Char :=
  l.filter (fun c => c.toNat < 128)

/-- The deterministic part of `_ascii_safe` (rag.py lines 82-87): drop the
extension, transliterate (`unicodedata.normalize("NFKD", ...)` is the
abstract parameter `nfkd` — the result below holds for every
transliteration because the ASCII filter and the slug regex run after
it), filter to ASCII, lowercase, slugify, strip dashes. -/
def sanitizeCore (nfkd : String → String) (s : String) : List Char :=
  let base := (splitextList s.toList).1
  let ascii_base := asciiIgnore (nfkd (String.mk base)).toList
  let slug := slugify (ascii_base.map Char.toLower)
  rstripChar '-' (lstripChar '-' slug)

/-- Lines 88-89 of `_ascii_safe`: substitute the fallback token `fb` when
the slug is empty. -/
def orFallback (fb : List Char) (slug0 : List Char) : List Char :=
  if slug0.isEmpty then fb else slug0

/-- Lines 88-92 of `_ascii_safe`: substitute the fallback token `fb` when
the slug is empty, then truncate to 40 characters stripping trailing
dashes again. -/
def finishSlug (fb : List Char) (slug0 : List Char) : List Char :=
  if (orFallback fb slug0).length > 40
  then rstripChar '-' ((orFallback fb slug0).take 40)
  else orFallback fb slug0

/-- `FileSearchTool._ascii_safe` (rag.py lines 79-94).  `uuidHex` is the
fresh `uuid.uuid4().hex` drawn when the slug is empty: it is a parameter
because it is random, chosen anew at each call. -/
def ascii_safe (nfkd : String → String) (uuidHex : String) (s : String) : String :=
  String.mk (finishSlug ("file-" ++ uuidHex).toList (sanitizeCore nfkd s))

/-- Lowercase hex digits, the alphabet of `uuid.uuid4().hex`. -/
def isHexLower (c : Char) : Bool :=
  ('0' ≤ c && c ≤ '9') || ('a' ≤ c && c ≤ 'f')

theorem isIdChar_of_lowerAlnum {c : Char} (h : isLowerAlnum c = true) :
    isIdChar c = true := by
  show (isLowerAlnum c || (c == '-')) = true
  rw [h, Bool.true_or]

theorem slugifyAux_chars (l : List Char) :
    ∀ (b : Bool), ∀ c ∈ slugifyAux b l, isIdChar c = true := by
  induction l with
  | nil =>
    intro b c hc
    simp [slugifyAux] at hc
  | cons d rest ih =>
    intro b c hc
    rw [slugifyAux] at hc
    by_cases hd : isLowerAlnum d = true
    · rw [if_pos hd] at hc
      rcases List.mem_cons.mp hc with rfl | h2
      · exact isIdChar_of_lowerAlnum hd
      · exact ih false c h2
    · rw [if_neg hd] at hc
      cases b with
      | true => exact ih true c (by simpa using hc)
      | false =>
        simp only [Bool.false_eq_true, if_false] at hc
        rcases List.mem_cons.mp hc with rfl | h2
        · decide
        · exact ih true c h2

theorem slugify_chars (l : List Char) : ∀ c ∈ slugify l, isIdChar c = true :=
  slugifyAux_chars l false

theorem mem_lstripChar {c ch : Char} {l : List Char} (h : c ∈ lstripChar ch l) :
    c ∈ l :=
  (List.dropWhile_sublist _).subset h

theorem mem_rstripChar {c ch : Char} {l : List Char} (h : c ∈ rstripChar ch l) :
    c ∈ l := by
  unfold rstripChar at h
  rw [List.mem_reverse] at h
  have h2 := (List.dropWhile_sublist (fun d => d == ch)).subset h
  rwa [List.mem_reverse] at h2

theorem length_rstripChar_le (ch : Char) (l : List Char) :
    (rstripChar ch l).length ≤ l.length := by
  have h1 := (List.dropWhile_sublist (fun d => d == ch) (l := l.reverse)).length_le
  simpa [rstripChar] using h1

theorem isIdChar_of_hexLower {c : Char} (h : isHexLower c = true) :
    isIdChar c = true := by
  simp only [isHexLower, Bool.or_eq_true, Bool.and_eq_true, decide_eq_true_eq] at h
  simp only [isIdChar, Bool.or_eq_true, Bool.and_eq_true, decide_eq_true_eq]
  rcases h with ⟨h1, h2⟩ | ⟨h1, h2⟩
  · exact Or.inl (Or.inr ⟨h1, h2⟩)
  · exact Or.inl (Or.inl ⟨h1, le_trans h2 (by decide)⟩)

theorem sanitizeCore_chars (nfkd : String → String) (s : String) :
    ∀ c ∈ sanitizeCore nfkd s, isIdChar c = true := by
  intro c hc
  unfold sanitizeCore at hc
  exact slugify_chars _ c (mem_lstripChar (mem_rstripChar hc))

theorem orFallback_chars (fb slug0 : List Char)
    (hf : ∀ c ∈ fb, isIdChar c = true) (h0 : ∀ c ∈ slug0, isIdChar c = true) :
    ∀ c ∈ orFallback fb slug0, isIdChar c = true := by
  unfold orFallback
  split
  · exact hf
  · exact h0

theorem finishSlug_chars (fb slug0 : List Char)
    (hf : ∀ c ∈ fb, isIdChar c = true) (h0 : ∀ c ∈ slug0, isIdChar c = true) :
    ∀ c ∈ finishSlug fb slug0, isIdChar c = true := by
  have h1 := orFallback_chars fb slug0 hf h0
  unfold finishSlug
  split
  · intro c hc
    exact h1 c (List.take_subset 40 _ (mem_rstripChar hc))
  · exact h1

theorem finishSlug_length (fb slug0 : List Char) :
    (finishSlug fb slug0).length ≤ 40 := by
  unfold finishSlug
  split
  · calc (rstripChar '-' ((orFallback fb slug0).take 40)).length
        ≤ ((orFallback fb slug0).take 40).length := length_rstripChar_le _ _
      _ ≤ 40 := by simp
  · rename_i hgt
    omega

theorem toList_ascii_safe (nfkd : String → String) (uuidHex : String) (s : String) :
    (ascii_safe nfkd uuidHex s).toList =
      finishSlug ("file-" ++ uuidHex).toList (sanitizeCore nfkd s) := rfl

/-- C3: for every input string (and every transliteration and fallback
token of `uuid4().hex` shape), `_ascii_safe` produces at most 40
characters, all in `[a-z0-9-]`; in particular the output contains no path
separator and no dot (the extension having been split off before
slugification). -/
theorem ascii_safe_guarantees (nfkd : String → String) (uuidHex : String) (s : String)
    (hhex : ∀ c ∈ uuidHex.toList, isHexLower c = true) :
    (ascii_safe nfkd uuidHex s).toList.length ≤ 40 ∧
    (∀ c ∈ (ascii_safe nfkd uuidHex s).toList, isIdChar c = true) ∧
    '/' ∉ (ascii_safe nfkd uuidHex s).toList ∧
    '.' ∉ (ascii_safe nfkd uuidHex s).toList := by
  have happ : ("file-" ++ uuidHex).toList = "file-".toList ++ uuidHex.toList := by
    simp [String.toList, String.data_append]
  have hfall : ∀ c ∈ ("file-" ++ uuidHex).toList, isIdChar c = true := by
    intro c hc
    rw [happ] at hc
    rcases List.mem_append.mp hc with h | h
    · fin_cases h <;> decide
    · exact isIdChar_of_hexLower (hhex c h)
  rw [toList_ascii_safe]
  have hchars := finishSlug_chars _ _ hfall (sanitizeCore_chars nfkd s)
  refine ⟨finishSlug_length _ _, hchars, ?_, ?_⟩
  · intro hmem
    exact absurd (hchars '/' hmem) (by decide)
  · intro hmem
    exact absurd (hchars '.' hmem) (by decide)

/-- C3 witness at a concrete input and a concrete 32-hex-digit token. -/
theorem ascii_safe_guarantees_witness :
    (ascii_safe (fun x => x) "0123456789abcdef0123456789abcdef" "Hello World.txt").toList.length ≤ 40 ∧
    (∀ c ∈ (ascii_safe (fun x => x) "0123456789abcdef0123456789abcdef" "Hello World.txt").toList,
      isIdChar c = true) ∧
    '/' ∉ (ascii_safe (fun x => x) "0123456789abcdef0123456789abcdef" "Hello World.txt").toList ∧
    '.' ∉ (ascii_safe (fun x => x) "0123456789abcdef0123456789abcdef" "Hello World.txt").toList :=
  ascii_safe_guarantees (fun x => x) "0123456789abcdef0123456789abcdef" "Hello World.txt"
    (by decide)

/-- C7 counterexample: the sanitizer is not deterministic across two runs
on inputs whose slug collapses to empty — the fallback embeds the fresh
random `uuid4().hex`, so two calls with different draws disagree on
`"???"`. -/
theorem ascii_safe_two_runs_differ :
    ascii_safe (fun x => x) "00000000000000000000000000000000" "???" ≠
    ascii_safe (fun x => x) "11111111111111111111111111111111" "???" := by
  decide

/-- C7 amended: whenever the sanitized slug is nonempty (the random
fallback is not taken), two applications of `_ascii_safe` agree whatever
random tokens the two runs draw. -/
theorem ascii_safe_deterministic_of_core_nonempty (nfkd : String → String)
    (tok1 tok2 : String) (s : String) (h : sanitizeCore nfkd s ≠ []) :
    ascii_safe nfkd tok1 s = ascii_safe nfkd tok2 s := by
  have hne : (sanitizeCore nfkd s).isEmpty = false := by
    cases hl : (sanitizeCore nfkd s) with
    | nil => exact absurd hl h
    | cons a t => rfl
  unfold ascii_safe finishSlug orFallback
  simp only [hne, Bool.false_eq_true, if_false]

/-- C7 amended witness: a concrete input with nonempty slug is stable
across two different random tokens. -/
theorem ascii_safe_deterministic_witness :
    ascii_safe (fun x => x) "00000000000000000000000000000000" "notes.txt" =
    ascii_safe (fun x => x) "11111111111111111111111111111111" "notes.txt" :=
  ascii_safe_deterministic_of_core_nonempty (fun x => x) _ _ "notes.txt" (by decide)

/-- C4 (code bug): `_is_valid_file_id` accepts `"files/abc\n"` because
Python's `re.match(r"^[a-z0-9-]+$", "abc\n")` matches (`$` also matches
just before a trailing newline), while the predicate claimed by the spec
and by the function's own comment (id is lowercase alnum/dash only)
rejects it. -/
theorem valid_file_id_trailing_newline_bug :
    is_valid_file_id (.str "files/abc\n") = true ∧
    spec_valid_file_id "files/abc\n" = false := by
  constructor
  · decide
  · decide

/-- One value of the state dict `.file_index.json`: the fields written by
`upload_file`.  `Option` models a key that is absent from the dict (as can
happen for a hand-edited or stale ledger file). -/
structure LedgerEntry where
  file_id : Option String
  file_name : Option String
  original_file_name : Option String
  safe_file_name : Option String
deriving DecidableEq, Repr

/-- The state dict: keys are `str(file_path.resolve())`, in Python dict
insertion order. -/
abbrev Ledger := List (String × LedgerEntry)

/-- `self.state.get(k)` followed by taking the entry. -/
def lookup (st : Ledger) (k : String) : Option LedgerEntry :=
  (st.find? (fun kv => kv.1 == k)).map (·.2)

/-- `self.state[k] = v` on a Python dict: an existing key keeps its
position and gets the new value; a fresh key is appended. -/
def dictInsert (st : Ledger) (k : String) (v : LedgerEntry) : Ledger :=
  if st.any (fun kv => kv.1 == k) then
    st.map (fun kv => if kv.1 == k then (k, v) else kv)
  else st ++ [(k, v)]

/-- The removal test of `clean_state` (rag.py line 278):
`not file_id or not self._is_valid_file_id(file_id)`. -/
def entryInvalid (v : LedgerEntry) : Bool :=
  match v.file_id with
  | none => true
  | some fid => fid == "" || !(is_valid_file_id (.str fid))

/-- `FileSearchTool.clean_state` (rag.py lines 271-283): walk the entries
in order, delete the invalid ones, and remember whether anything changed.
Returns the remaining ledger, the removed keys in iteration order, and
the `changed` flag (the code calls `_save_state` exactly when it is
true). -/
def clean_state : Ledger → Ledger × List String × Bool
  | [] => ([], [], false)
  | (k, v) :: rest =>
    let r := clean_state rest
    if entryInvalid v then (r.1, k :: r.2.1, true)
    else ((k, v) :: r.1, r.2.1, r.2.2)

/-- The validity condition of the claim: `remote_file_id` present,
non-empty and accepted by the identifier-validity predicate. -/
def EntryValid (v : LedgerEntry) : Prop :=
  ∃ fid, v.file_id = some fid ∧ fid ≠ "" ∧ is_valid_file_id (.str fid) = true

instance (v : LedgerEntry) : Decidable (EntryValid v) := by
  unfold EntryValid
  cases v.file_id with
  | none => exact isFalse (by rintro ⟨fid, h, -⟩; cases h)
  | some fid =>
    by_cases h1 : fid = ""
    · exact isFalse (by rintro ⟨f, hf, hne, -⟩; cases hf; exact hne h1)
    · by_cases h2 : is_valid_file_id (.str fid) = true
      · exact isTrue ⟨fid, rfl, h1, h2⟩
      · exact isFalse (by rintro ⟨f, hf, -, hv⟩; cases hf; exact h2 hv)

theorem entryInvalid_iff (v : LedgerEntry) :
    entryInvalid v = true ↔ ¬ EntryValid v := by
  unfold entryInvalid EntryValid
  cases hv : v.file_id with
  | none =>
    simp
  | some fid =>
    rw [Bool.or_eq_true]
    constructor
    · intro h
      rintro ⟨f, hf, hne, hval⟩
      have hffid : f = fid := by injection hf.symm
      subst hffid
      rcases h with h1 | h1
      · exact hne (by simpa using h1)
      · rw [hval] at h1
        simp at h1
    · intro h
      by_cases h1 : fid = ""
      · exact Or.inl (by simpa using h1)
      · right
        cases hval : is_valid_file_id (.str fid) with
        | false => rfl
        | true => exact absurd ⟨fid, rfl, h1, hval⟩ h

theorem clean_state_eq (st : Ledger) :
    clean_state st =
      (st.filter (fun kv => !entryInvalid kv.2),
       (st.filter (fun kv => entryInvalid kv.2)).map (·.1),
       st.any (fun kv => entryInvalid kv.2)) := by
  induction st with
  | nil => rfl
  | cons kv rest ih =>
    obtain ⟨k0, v0⟩ := kv
    rw [clean_state, ih]
    by_cases hi : entryInvalid v0 = true
    · simp [List.filter_cons, List.any_cons, hi]
    · simp only [Bool.not_eq_true] at hi
      simp [List.filter_cons, List.any_cons, hi]

/-- C5: `clean_state` keeps exactly the entries whose `remote_file_id` is
present, non-empty and valid; it reports exactly the keys of the removed
entries; and on an already-clean ledger it returns the ledger unchanged
with `changed = false`, so no state file write happens. -/
theorem clean_state_spec (st : Ledger) :
    (∀ k v, (k, v) ∈ (clean_state st).1 ↔ ((k, v) ∈ st ∧ EntryValid v)) ∧
    (∀ k, k ∈ (clean_state st).2.1 ↔ ∃ v, (k, v) ∈ st ∧ ¬ EntryValid v) ∧
    ((∀ kv ∈ st, EntryValid kv.2) → clean_state st = (st, [], false)) := by
  refine ⟨?_, ?_, ?_⟩
  · intro k v
    rw [clean_state_eq]
    constructor
    · intro hmem
      obtain ⟨hm, hinv⟩ := List.mem_filter.mp hmem
      rw [Bool.not_eq_true'] at hinv
      refine ⟨hm, ?_⟩
      by_contra hnv
      have := (entryInvalid_iff v).mpr hnv
      rw [hinv] at this
      exact Bool.false_ne_true this
    · rintro ⟨hm, hval⟩
      refine List.mem_filter.mpr ⟨hm, ?_⟩
      rw [Bool.not_eq_true']
      cases hinv : entryInvalid v with
      | false => rfl
      | true => exact absurd hval ((entryInvalid_iff v).mp hinv)
  · intro k
    rw [clean_state_eq]
    constructor
    · intro hk
      obtain ⟨kv, hkv, hfst⟩ := List.mem_map.mp hk
      obtain ⟨k1, v1⟩ := kv
      obtain ⟨hm, hinv⟩ := List.mem_filter.mp hkv
      cases hfst
      exact ⟨v1, hm, (entryInvalid_iff v1).mp hinv⟩
    · rintro ⟨v, hm, hnv⟩
      exact List.mem_map.mpr
        ⟨(k, v), List.mem_filter.mpr ⟨hm, (entryInvalid_iff v).mpr hnv⟩, rfl⟩
  · intro hall
    rw [clean_state_eq]
    have hnone : ∀ kv ∈ st, entryInvalid kv.2 = false := by
      intro kv hm
      cases hinv : entryInvalid kv.2 with
      | false => rfl
      | true => exact absurd (hall kv hm) ((entryInvalid_iff kv.2).mp hinv)
    have h1 : st.filter (fun kv => !entryInvalid kv.2) = st :=
      List.filter_eq_self.mpr (fun kv hm => by rw [hnone kv hm]; rfl)
    have h2 : st.filter (fun kv => entryInvalid kv.2) = [] := by
      rw [List.filter_eq_nil_iff]
      intro kv hm
      rw [hnone kv hm]
      exact Bool.false_ne_true
    have h3 : st.any (fun kv => entryInvalid kv.2) = false := by
      rw [List.any_eq_false]
      intro kv hm
      rw [hnone kv hm]
      exact Bool.false_ne_true
    rw [h1, h2, h3]
    rfl

/-- Example entry with an empty `file_id`. -/
def entryEmptyId : LedgerEntry :=
  { file_id := some "", file_name := none, original_file_name := none,
    safe_file_name := none }

/-- Example entry whose id portion has 50 characters. -/
def entryLongId : LedgerEntry :=
  { file_id := some "files/aaaaaaaaaaaaaaaaaaaaaaaaaaaaaaaaaaaaaaaaaaaaaaaaaa",
    file_name := none, original_file_name := none, safe_file_name := none }

/-- Example valid entry. -/
def entryOk : LedgerEntry :=
  { file_id := some "files/ok-3", file_name := some "files/ok-3",
    original_file_name := some "c.txt", safe_file_name := some "c-txt" }

/-- The spec's prune example: one entry with an empty id, one whose id
portion has 50 characters, one valid. -/
def exampleLedger : Ledger :=
  [("/docs/a.txt", entryEmptyId), ("/docs/b.txt", entryLongId),
   ("/docs/c.txt", entryOk)]

/-- A ledger whose single entry is valid. -/
def cleanLedger : Ledger :=
  [("/docs/c.txt", entryOk)]

/-- C5 witness: the spec's three-entry example (empty id, 50-character
id, valid id) keeps only the valid entry and reports the other two keys;
a ledger that is already clean is returned unchanged with no write. -/
theorem clean_state_spec_witness :
    (("/docs/c.txt", entryOk) ∈ (clean_state exampleLedger).1 ∧
     "/docs/a.txt" ∈ (clean_state exampleLedger).2.1) ∧
    clean_state cleanLedger = (cleanLedger, [], false) := by
  constructor
  · constructor
    · exact ((clean_state_spec exampleLedger).1 _ _).mpr
        ⟨by decide, ⟨"files/ok-3", by decide, by decide, by decide⟩⟩
    · exact ((clean_state_spec exampleLedger).2.1 _).mpr
        ⟨entryEmptyId, by decide, by decide⟩
  · exact (clean_state_spec cleanLedger).2.2 (by decide)

/-- The two fields of a `pathlib.Path` argument that `upload_file` and
`prepare` read: `str(file_path.resolve())` (the ledger key) and
`file_path.name`. -/
structure PyPath where
  resolved : String
  name : String
deriving DecidableEq, Repr

/-- Observable effects of a run: remote calls and the phases of
`prepare`.  `uploadAttempt`/`importAttempt` mark that the corresponding
call statement in the `prepare` loop was reached; `uploadCall`,
`importCall` and `pollCall` are actual remote requests. -/
inductive REvent where
  | resolveStore (name : String)
  | cleanState
  | uploadAttempt (path : String)
  | uploadCall (path name : String)
  | importAttempt (fid : String)
  | importCall (store ref : String)
  | pollCall
deriving DecidableEq, Repr

/-- The remote upload operation `client.files.upload` behind
`try_upload_with_name`, as an oracle from (source path, desired name) to
either the created resource's `name` or a raised exception.  The
temporary ASCII-named copy staged for non-ASCII filenames changes
neither the ledger nor the remote call outcome, so it is not modelled. -/
structure RemoteEnv where
  upload : String → String → Except String String

/-- Truthiness of `self.state.get(key, {}).get("file_id")` for a present
entry: the field exists and is a non-empty string. -/
def fidTruthy (e : LedgerEntry) : Bool :=
  match e.file_id with
  | some fid => fid != ""
  | none => false

/-- The name-choice stage of `upload_file` (rag.py lines 154-167): with
`prefer_utf8` try the original name and fall back to the ASCII-safe name
on an exception; otherwise use the ASCII-safe name directly.  Also
returns the remote calls made. -/
def uploadNameStage (renv : RemoteEnv) (nfkd : String → String) (uuidHex : String)
    (prefer_utf8 : Bool) (p : PyPath) : Except String String × List REvent :=
  if prefer_utf8 then
    match renv.upload p.resolved p.name with
    | .ok r => (.ok r, [.uploadCall p.resolved p.name])
    | .error _ =>
      (renv.upload p.resolved (ascii_safe nfkd uuidHex p.name),
       [.uploadCall p.resolved p.name,
        .uploadCall p.resolved (ascii_safe nfkd uuidHex p.name)])
  else
    (renv.upload p.resolved (ascii_safe nfkd uuidHex p.name),
     [.uploadCall p.resolved (ascii_safe nfkd uuidHex p.name)])

/-- The `file_info` dict built at rag.py line 168. -/
def mkFileInfo (nfkd : String → String) (uuidHex : String) (p : PyPath)
    (rname : String) : LedgerEntry :=
  { file_id := some rname, file_name := some rname,
    original_file_name := some p.name,
    safe_file_name := some (ascii_safe nfkd uuidHex p.name) }

/-- The non-cached path of `upload_file`: upload, store the entry under
the resolved path, save.  Returns (result, new state, remote calls,
saved flag); `Except.error` is a Python exception propagating to the
caller. -/
def upload_fresh (renv : RemoteEnv) (nfkd : String → String) (uuidHex : String)
    (prefer_utf8 : Bool) (st : Ledger) (p : PyPath) :
    Except String LedgerEntry × Ledger × List REvent × Bool :=
  match uploadNameStage renv nfkd uuidHex prefer_utf8 p with
  | (.error e, evs) => (.error e, st, evs, false)
  | (.ok rname, evs) =>
    (.ok (mkFileInfo nfkd uuidHex p rname),
     dictInsert st p.resolved (mkFileInfo nfkd uuidHex p rname), evs, true)

/-- `FileSearchTool.upload_file` (rag.py lines 114-171): return the
cached entry when the ledger already has a truthy `file_id` for the
resolved path (no remote call, no save), otherwise upload afresh. -/
def upload_file (renv : RemoteEnv) (nfkd : String → String) (uuidHex : String)
    (prefer_utf8 : Bool) (st : Ledger) (p : PyPath) :
    Except String LedgerEntry × Ledger × List REvent × Bool :=
  match lookup st p.resolved with
  | some e =>
    if fidTruthy e then (.ok e, st, [], false)
    else upload_fresh renv nfkd uuidHex prefer_utf8 st p
  | none => upload_fresh renv nfkd uuidHex prefer_utf8 st p

theorem upload_file_lookup_some (renv : RemoteEnv) (nfkd : String → String)
    (uuidHex : String) (prefer_utf8 : Bool) (st : Ledger) (p : PyPath)
    (e : LedgerEntry) (h : lookup st p.resolved = some e) :
    upload_file renv nfkd uuidHex prefer_utf8 st p =
      if fidTruthy e then (.ok e, st, [], false)
      else upload_fresh renv nfkd uuidHex prefer_utf8 st p := by
  unfold upload_file
  rw [h]

theorem upload_file_lookup_none (renv : RemoteEnv) (nfkd : String → String)
    (uuidHex : String) (prefer_utf8 : Bool) (st : Ledger) (p : PyPath)
    (h : lookup st p.resolved = none) :
    upload_file renv nfkd uuidHex prefer_utf8 st p =
      upload_fresh renv nfkd uuidHex prefer_utf8 st p := by
  unfold upload_file
  rw [h]

theorem lookup_dictInsert (st : Ledger) (k : String) (v : LedgerEntry) :
    lookup (dictInsert st k v) k = some v := by
  induction st with
  | nil =>
    simp [dictInsert, lookup]
  | cons kv rest ih =>
    by_cases hk : (kv.1 == k) = true
    · unfold dictInsert
      rw [if_pos (by simp [List.any_cons, hk])]
      simp only [List.map_cons, if_pos hk]
      unfold lookup
      rw [List.find?_cons_of_pos _ (by simp)]
      rfl
    · have hk' : (kv.1 == k) = false := by simpa using hk
      unfold dictInsert
      by_cases ha : (rest.any (fun x => x.1 == k)) = true
      · rw [if_pos (by simp [List.any_cons, ha])]
        simp only [List.map_cons, hk', if_false]
        unfold lookup
        rw [List.find?_cons_of_neg _ (by simp [hk'])]
        have hrw : dictInsert rest k v = rest.map (fun x => if x.1 == k then (k, v) else x) := by
          unfold dictInsert
          rw [if_pos ha]
        rw [hrw] at ih
        exact ih
      · rw [if_neg (by simp [List.any_cons, hk', ha])]
        rw [List.cons_append]
        unfold lookup
        rw [List.find?_cons_of_neg _ (by simp [hk'])]
        have hrw : dictInsert rest k v = rest ++ [(k, v)] := by
          unfold dictInsert
          rw [if_neg ha]
        rw [hrw] at ih
        exact ih

/-- C1: when the ledger already holds an entry with a non-empty, valid
`remote_file_id` for a path, `upload_file` returns that entry unchanged,
issues no remote call and does not save; consequently a second call
right after a successful first upload (which stored a non-empty id)
makes zero remote calls and leaves the ledger unchanged. -/
theorem upload_file_cached (renv : RemoteEnv) (nfkd : String → String)
    (uuidHex : String) (prefer_utf8 : Bool) :
    (∀ (st : Ledger) (p : PyPath) (e : LedgerEntry) (fid : String),
      lookup st p.resolved = some e → e.file_id = some fid → fid ≠ "" →
      is_valid_file_id (.str fid) = true →
      upload_file renv nfkd uuidHex prefer_utf8 st p = (.ok e, st, [], false)) ∧
    (∀ (st st' : Ledger) (p : PyPath) (e : LedgerEntry) (fid : String)
      (evs : List REvent),
      upload_file renv nfkd uuidHex prefer_utf8 st p = (.ok e, st', evs, true) →
      e.file_id = some fid → fid ≠ "" →
      upload_file renv nfkd uuidHex prefer_utf8 st' p = (.ok e, st', [], false)) := by
  have hcached : ∀ (st : Ledger) (p : PyPath) (e : LedgerEntry) (fid : String),
      lookup st p.resolved = some e → e.file_id = some fid → fid ≠ "" →
      upload_file renv nfkd uuidHex prefer_utf8 st p = (.ok e, st, [], false) := by
    intro st p e fid hl hfid hne
    rw [upload_file_lookup_some renv nfkd uuidHex prefer_utf8 st p e hl]
    have ht : fidTruthy e = true := by
      unfold fidTruthy
      rw [hfid]
      simpa using hne
    rw [if_pos ht]
  have hfresh : ∀ (st st' : Ledger) (p : PyPath) (e : LedgerEntry) (evs : List REvent),
      upload_fresh renv nfkd uuidHex prefer_utf8 st p = (.ok e, st', evs, true) →
      st' = dictInsert st p.resolved e := by
    intro st st' p e evs hrun
    unfold upload_fresh at hrun
    cases hstage : uploadNameStage renv nfkd uuidHex prefer_utf8 p with
    | mk res evs0 =>
      rw [hstage] at hrun
      cases res with
      | error e1 => simp at hrun
      | ok rname =>
        simp only [Prod.mk.injEq] at hrun
        obtain ⟨h1, h2, h3, h4⟩ := hrun
        have he : mkFileInfo nfkd uuidHex p rname = e := by
          injection h1
        rw [← h2, he]
  refine ⟨fun st p e fid hl hfid hne _ => hcached st p e fid hl hfid hne, ?_⟩
  intro st st' p e fid evs hrun hfid hne
  have hst' : st' = dictInsert st p.resolved e := by
    cases hl : lookup st p.resolved with
    | some e0 =>
      rw [upload_file_lookup_some renv nfkd uuidHex prefer_utf8 st p e0 hl] at hrun
      by_cases ht : fidTruthy e0 = true
      · rw [if_pos ht] at hrun
        simp at hrun
      · rw [if_neg ht] at hrun
        exact hfresh st st' p e evs hrun
    | none =>
      rw [upload_file_lookup_none renv nfkd uuidHex prefer_utf8 st p hl] at hrun
      exact hfresh st st' p e evs hrun
  have hl' : lookup st' p.resolved = some e := by
    rw [hst']
    exact lookup_dictInsert st p.resolved e
  exact hcached st' p e fid hl' hfid hne

/-- C1 witness: a ledger pre-seeded with a valid entry is returned
unchanged with zero remote calls and no save. -/
theorem upload_file_cached_witness :
    upload_file ⟨fun _ _ => .error "network down"⟩ (fun x => x) "0f" false
      cleanLedger ⟨"/docs/c.txt", "c.txt"⟩ = (.ok entryOk, cleanLedger, [], false) :=
  (upload_file_cached ⟨fun _ _ => .error "network down"⟩ (fun x => x) "0f" false).1
    cleanLedger ⟨"/docs/c.txt", "c.txt"⟩ entryOk "files/ok-3"
    (by decide) (by decide) (by decide) (by decide)

/-- A remote long-running operation as `import_file_to_store` sees it:
its `done` flag plus an identity for bookkeeping in the oracle. -/
structure Operation where
  done : Bool
  idx : Nat
deriving DecidableEq, Repr

/-- The two remote operations used by `import_file_to_store`:
`client.file_search_stores.import_file` and `client.operations.get`.
`Except.error` models a raised exception. -/
structure ImportEnv where
  importFile : String → String → Except String Operation
  opGet : Operation → Except String Operation

/-- Outcome of one `import_file_to_store` call.  The Python function
returns `None` for the skip and failure cases (printing the reason) and
the operation on success; the constructors record the reason.
`pollPending` is the fuel-exhausted stand-in for a poll loop that is
still running (the code's loop is unbounded). -/
inductive ImportOutcome where
  | registered (op : Operation)
  | pollPending
  | failed (msg : String)
  | skippedInvalid
  | skippedMissing
deriving DecidableEq, Repr

/-- The poll loop of rag.py lines 198-200: `while not op.done: sleep(2);
op = self.client.operations.get(op)`.  The `done` test runs before each
get; `fuel` bounds the number of get calls.  An exception from
`operations.get` is NOT caught by the function (the surrounding `try`
covers only the `import_file` call), so it surfaces as `.error`. -/
def pollOp (ienv : ImportEnv) : Nat → Operation → Except String ImportOutcome × List REvent
  | 0, op =>
    if op.done then (.ok (.registered op), []) else (.ok .pollPending, [])
  | fuel + 1, op =>
    if op.done then (.ok (.registered op), [])
    else
      match ienv.opGet op with
      | .error e => (.error e, [.pollCall])
      | .ok op2 =>
        ((pollOp ienv fuel op2).1, .pollCall :: (pollOp ienv fuel op2).2)

/-- Lines 178-180: normalize to the `files/<id>` form. -/
def normalizeRef (file_name : String) : String :=
  if file_name.toList.take 6 = "files/".toList then file_name
  else "files/" ++ file_name

/-- `FileSearchTool.import_file_to_store` (rag.py lines 173-201): skip an
empty name, normalize, skip an invalid reference without any remote
call, catch exceptions of the import request itself (returning `None`
with a printed hint, modelled as `.failed`), then poll. -/
def import_file_to_store (ienv : ImportEnv) (fuel : Nat)
    (store_name file_name : String) : Except String ImportOutcome × List REvent :=
  if file_name = "" then (.ok .skippedMissing, [])
  else
    if !(is_valid_file_id (.str (normalizeRef file_name))) then
      (.ok .skippedInvalid, [])
    else
      match ienv.importFile store_name (normalizeRef file_name) with
      | .error e =>
        (.ok (.failed e), [.importCall store_name (normalizeRef file_name)])
      | .ok op =>
        ((pollOp ienv fuel op).1,
         .importCall store_name (normalizeRef file_name) :: (pollOp ienv fuel op).2)

/-- C2 counterexample: when the import request succeeds but the first
`operations.get` of the poll loop raises, the exception propagates out
of `import_file_to_store` (the result is `.error`, not a `.failed`
value): the claim that every remote exception is converted to a Failed
result is false. -/
theorem import_poll_exception_propagates :
    import_file_to_store ⟨fun _ _ => .ok ⟨false, 0⟩, fun _ => .error "boom"⟩ 1
      "stores/s" "files/abc" =
      (.error "boom", [.importCall "stores/s" "files/abc", .pollCall]) := by
  rfl

theorem pollOp_ok_of_get_ok (ienv : ImportEnv)
    (hok : ∀ op, ∃ op2, ienv.opGet op = .ok op2) :
    ∀ (fuel : Nat) (op : Operation), ∃ r, (pollOp ienv fuel op).1 = .ok r := by
  intro fuel
  induction fuel with
  | zero =>
    intro op
    unfold pollOp
    by_cases h : op.done = true
    · exact ⟨.registered op, by rw [if_pos h]⟩
    · exact ⟨.pollPending, by rw [if_neg h]⟩
  | succ fuel ih =>
    intro op
    unfold pollOp
    by_cases h : op.done = true
    · exact ⟨.registered op, by rw [if_pos h]⟩
    · obtain ⟨op2, hop⟩ := hok op
      obtain ⟨r, hr⟩ := ih op2
      refine ⟨r, ?_⟩
      rw [if_neg h, hop]
      exact hr

/-- C2 amended: an empty identifier or an invalid normalized reference
is skipped with zero remote calls; an exception raised by the import
request itself yields a Failed result (never propagates); but an
exception can still escape the function — exactly from the poll loop:
when `operations.get` never raises, the result is always a value. -/
theorem import_file_boundary (ienv : ImportEnv) (fuel : Nat) (store_name : String) :
    (import_file_to_store ienv fuel store_name "" = (.ok .skippedMissing, [])) ∧
    (∀ fn : String, fn ≠ "" →
      is_valid_file_id (.str (normalizeRef fn)) = false →
      import_file_to_store ienv fuel store_name fn = (.ok .skippedInvalid, [])) ∧
    (∀ (fn msg : String), fn ≠ "" →
      is_valid_file_id (.str (normalizeRef fn)) = true →
      ienv.importFile store_name (normalizeRef fn) = .error msg →
      import_file_to_store ienv fuel store_name fn =
        (.ok (.failed msg), [.importCall store_name (normalizeRef fn)])) ∧
    ((∀ op, ∃ op2, ienv.opGet op = .ok op2) →
      ∀ fn : String, ∃ r, (import_file_to_store ienv fuel store_name fn).1 = .ok r) := by
  refine ⟨?_, ?_, ?_, ?_⟩
  · unfold import_file_to_store
    rw [if_pos rfl]
  · intro fn hne hinv
    unfold import_file_to_store
    rw [if_neg hne, if_pos (by rw [hinv]; rfl)]
  · intro fn msg hne hval himp
    unfold import_file_to_store
    rw [if_neg hne, if_neg (by rw [hval]; simp), himp]
  · intro hok fn
    by_cases hne : fn = ""
    · subst hne
      exact ⟨.skippedMissing, by unfold import_file_to_store; rw [if_pos rfl]⟩
    · cases hval : is_valid_file_id (.str (normalizeRef fn)) with
      | false =>
        refine ⟨.skippedInvalid, ?_⟩
        unfold import_file_to_store
        rw [if_neg hne, if_pos (by rw [hval]; rfl)]
      | true =>
        cases himp : ienv.importFile store_name (normalizeRef fn) with
        | error e =>
          refine ⟨.failed e, ?_⟩
          unfold import_file_to_store
          rw [if_neg hne, if_neg (by rw [hval]; simp), himp]
        | ok op =>
          obtain ⟨r, hr⟩ := pollOp_ok_of_get_ok ienv hok fuel op
          refine ⟨r, ?_⟩
          unfold import_file_to_store
          rw [if_neg hne, if_neg (by rw [hval]; simp), himp]
          exact hr

/-- C2 amended witness: concrete runs of the four conjuncts — empty
name, invalid name, failing import request, and a benign poll oracle. -/
theorem import_file_boundary_witness :
    (import_file_to_store ⟨fun _ _ => .ok ⟨true, 7⟩, fun op => .ok op⟩ 3 "stores/s" "" =
      (.ok .skippedMissing, [])) ∧
    (import_file_to_store ⟨fun _ _ => .ok ⟨true, 7⟩, fun op => .ok op⟩ 3 "stores/s" "BAD ID" =
      (.ok .skippedInvalid, [])) ∧
    (import_file_to_store ⟨fun _ _ => .error "INVALID_ARGUMENT: stale", fun op => .ok op⟩ 3
      "stores/s" "files/abc" =
      (.ok (.failed "INVALID_ARGUMENT: stale"), [.importCall "stores/s" "files/abc"])) ∧
    (∃ r, (import_file_to_store ⟨fun _ _ => .ok ⟨true, 7⟩, fun op => .ok op⟩ 3
      "stores/s" "files/abc").1 = .ok r) :=
  ⟨(import_file_boundary ⟨fun _ _ => .ok ⟨true, 7⟩, fun op => .ok op⟩ 3 "stores/s").1,
   (import_file_boundary ⟨fun _ _ => .ok ⟨true, 7⟩, fun op => .ok op⟩ 3 "stores/s").2.1
     "BAD ID" (by decide) (by decide),
   (import_file_boundary ⟨fun _ _ => .error "INVALID_ARGUMENT: stale", fun op => .ok op⟩ 3
     "stores/s").2.2.1 "files/abc" "INVALID_ARGUMENT: stale" (by decide) (by decide) rfl,
   (import_file_boundary ⟨fun _ _ => .ok ⟨true, 7⟩, fun op => .ok op⟩ 3 "stores/s").2.2.2
     (fun op => ⟨op, rfl⟩) "files/abc"⟩

/-- A remote file-search store handle: `name` and `display_name`. -/
structure StoreRef where
  name : String
  display_name : String
deriving DecidableEq, Repr

/-- The store-level remote operations used by
`create_or_get_file_search_store`: the listing (given as a value — the
code materializes `list(...)` up front) and store creation. -/
structure StoreEnv where
  stores : List StoreRef
  createStore : String → Except String StoreRef

/-- `FileSearchTool.create_or_get_file_search_store` (rag.py lines
96-112): return the first listed store whose display name equals the
requested name or its ASCII-safe form; otherwise create it, trying the
original name first only under `prefer_utf8` (falling back to the safe
name on an exception). -/
def create_or_get_file_search_store (senv : StoreEnv) (nfkd : String → String)
    (uuidHex : String) (prefer_utf8 : Bool) (display_name : String) :
    Except String StoreRef :=
  match senv.stores.find? (fun s =>
      s.display_name == display_name ||
      s.display_name == ascii_safe nfkd uuidHex display_name) with
  | some s => .ok s
  | none =>
    if prefer_utf8 then
      match senv.createStore display_name with
      | .ok s => .ok s
      | .error _ => senv.createStore (ascii_safe nfkd uuidHex display_name)
    else senv.createStore (ascii_safe nfkd uuidHex display_name)

/-- The body of the `for f in files` loop of `prepare` (rag.py lines
229-244) after the `upload_file` call was reached: its exception is
caught and the loop continues, the import is skipped when there is no
truthy `file_id`, then `import_file_to_store` runs (its own raised
exceptions — from polling — are also caught here). -/
def prepareStepRest (renv : RemoteEnv) (ienv : ImportEnv) (nfkd : String → String)
    (uuidHex : String) (prefer_utf8 : Bool) (fuel : Nat) (store_name : String)
    (st : Ledger) (p : PyPath) : Ledger × List REvent :=
  match upload_file renv nfkd uuidHex prefer_utf8 st p with
  | (.error _, st1, evs, _) => (st1, evs)
  | (.ok info, st1, evs, _) =>
    match info.file_id with
    | none => (st1, evs)
    | some fid =>
      if fid = "" then (st1, evs)
      else
        (st1, evs ++
          .importAttempt fid :: (import_file_to_store ienv fuel store_name fid).2)

/-- One loop iteration: the `uploadAttempt` marker records that the
`upload_file` call statement was reached for this path. -/
def prepareStep (renv : RemoteEnv) (ienv : ImportEnv) (nfkd : String → String)
    (uuidHex : String) (prefer_utf8 : Bool) (fuel : Nat) (store_name : String)
    (st : Ledger) (p : PyPath) : Ledger × List REvent :=
  ((prepareStepRest renv ienv nfkd uuidHex prefer_utf8 fuel store_name st p).1,
   .uploadAttempt p.resolved ::
     (prepareStepRest renv ienv nfkd uuidHex prefer_utf8 fuel store_name st p).2)

/-- The whole `for f in files` loop, threading the ledger. -/
def prepareLoop (renv : RemoteEnv) (ienv : ImportEnv) (nfkd : String → String)
    (uuidHex : String) (prefer_utf8 : Bool) (fuel : Nat) (store_name : String) :
    List PyPath → Ledger → Ledger × List REvent
  | [], st => (st, [])
  | p :: rest, st =>
    ((prepareLoop renv ienv nfkd uuidHex prefer_utf8 fuel store_name rest
        (prepareStep renv ienv nfkd uuidHex prefer_utf8 fuel store_name st p).1).1,
     (prepareStep renv ienv nfkd uuidHex prefer_utf8 fuel store_name st p).2 ++
       (prepareLoop renv ienv nfkd uuidHex prefer_utf8 fuel store_name rest
         (prepareStep renv ienv nfkd uuidHex prefer_utf8 fuel store_name st p).1).2)

/-- `FileSearchTool.prepare` (rag.py lines 217-246): resolve or create
the store (exceptions propagate), return it at once when the listing is
empty, otherwise prune the ledger and run the per-file loop; always
return the resolved store.  `files` is the materialized recursive
listing `_list_docs()` (files only, filesystem order). -/
def prepare (senv : StoreEnv) (renv : RemoteEnv) (ienv : ImportEnv)
    (nfkd : String → String) (uuidHex : String) (prefer_utf8 : Bool) (fuel : Nat)
    (display_name : String) (files : List PyPath) (st : Ledger) :
    Except String (StoreRef × Ledger × List REvent) :=
  match create_or_get_file_search_store senv nfkd uuidHex prefer_utf8 display_name with
  | .error e => .error e
  | .ok store =>
    if files.isEmpty then .ok (store, st, [.resolveStore store.name])
    else
      .ok (store,
        (prepareLoop renv ienv nfkd uuidHex prefer_utf8 fuel store.name files
          (clean_state st).1).1,
        .resolveStore store.name :: .cleanState ::
          (prepareLoop renv ienv nfkd uuidHex prefer_utf8 fuel store.name files
            (clean_state st).1).2)

/-- The store a `prepare` run returned, if it did not raise. -/
def prepStore : Except String (StoreRef × Ledger × List REvent) → Option StoreRef
  | .ok r => some r.1
  | .error _ => none

/-- The events of a `prepare` run (empty when it raised). -/
def prepEvents : Except String (StoreRef × Ledger × List REvent) → List REvent
  | .ok r => r.2.2
  | .error _ => []

/-- Events that the per-file loop can produce (everything except the
phase markers of store resolution and ledger pruning). -/
def isLoopEvent : REvent → Bool
  | .resolveStore _ => false
  | .cleanState => false
  | _ => true

/-- An `importCall` event carries a reference that passed
`_is_valid_file_id`; all other events satisfy this vacuously. -/
def importCallOk : REvent → Bool
  | .importCall _ r => is_valid_file_id (.str r)
  | _ => true

theorem pollOp_events (ienv : ImportEnv) :
    ∀ (fuel : Nat) (op : Operation), ∀ e ∈ (pollOp ienv fuel op).2, e = REvent.pollCall := by
  intro fuel
  induction fuel with
  | zero =>
    intro op e he
    unfold pollOp at he
    by_cases h : op.done = true
    · rw [if_pos h] at he
      have he2 : e ∈ ([] : List REvent) := he
      simp at he2
    · rw [if_neg h] at he
      have he2 : e ∈ ([] : List REvent) := he
      simp at he2
  | succ fuel ih =>
    intro op e he
    unfold pollOp at he
    by_cases h : op.done = true
    · rw [if_pos h] at he
      have he2 : e ∈ ([] : List REvent) := he
      simp at he2
    · rw [if_neg h] at he
      cases hg : ienv.opGet op with
      | error msg =>
        rw [hg] at he
        have he2 : e ∈ [REvent.pollCall] := he
        exact List.mem_singleton.mp he2
      | ok op2 =>
        rw [hg] at he
        have he2 : e ∈ REvent.pollCall :: (pollOp ienv fuel op2).2 := he
        rcases List.mem_cons.mp he2 with rfl | h2
        · rfl
        · exact ih op2 e h2

theorem import_events_ok (ienv : ImportEnv) (fuel : Nat) (sn fn : String) :
    ∀ e ∈ (import_file_to_store ienv fuel sn fn).2,
      isLoopEvent e = true ∧ importCallOk e = true := by
  intro e he
  unfold import_file_to_store at he
  by_cases h1 : fn = ""
  · rw [if_pos h1] at he
    have he2 : e ∈ ([] : List REvent) := he
    simp at he2
  · rw [if_neg h1] at he
    cases h2 : is_valid_file_id (.str (normalizeRef fn)) with
    | false =>
      rw [if_pos (by rw [h2]; rfl)] at he
      have he2 : e ∈ ([] : List REvent) := he
      simp at he2
    | true =>
      rw [if_neg (by rw [h2]; simp)] at he
      cases hg : ienv.importFile sn (normalizeRef fn) with
      | error msg =>
        rw [hg] at he
        have he2 : e ∈ [REvent.importCall sn (normalizeRef fn)] := he
        have he3 := List.mem_singleton.mp he2
        subst he3
        exact ⟨rfl, h2⟩
      | ok op =>
        rw [hg] at he
        have he2 : e ∈ REvent.importCall sn (normalizeRef fn) :: (pollOp ienv fuel op).2 := he
        rcases List.mem_cons.mp he2 with rfl | hmem
        · exact ⟨rfl, h2⟩
        · rw [pollOp_events ienv fuel op e hmem]
          exact ⟨rfl, rfl⟩

theorem uploadNameStage_events (renv : RemoteEnv) (nfkd : String → String)
    (uuidHex : String) (prefer_utf8 : Bool) (p : PyPath) :
    ∀ e ∈ (uploadNameStage renv nfkd uuidHex prefer_utf8 p).2,
      ∃ pa na, e = REvent.uploadCall pa na := by
  intro e he
  unfold uploadNameStage at he
  by_cases hp : prefer_utf8 = true
  · rw [if_pos hp] at he
    cases hg : renv.upload p.resolved p.name with
    | ok r =>
      rw [hg] at he
      have he2 : e ∈ [REvent.uploadCall p.resolved p.name] := he
      have he3 := List.mem_singleton.mp he2
      exact ⟨_, _, he3⟩
    | error msg =>
      rw [hg] at he
      have he2 : e ∈ [REvent.uploadCall p.resolved p.name,
        REvent.uploadCall p.resolved (ascii_safe nfkd uuidHex p.name)] := he
      rcases List.mem_cons.mp he2 with rfl | h2
      · exact ⟨_, _, rfl⟩
      · have he3 := List.mem_singleton.mp h2
        exact ⟨_, _, he3⟩
  · rw [if_neg hp] at he
    have he2 : e ∈ [REvent.uploadCall p.resolved (ascii_safe nfkd uuidHex p.name)] := he
    have he3 := List.mem_singleton.mp he2
    exact ⟨_, _, he3⟩

theorem upload_file_events (renv : RemoteEnv) (nfkd : String → String)
    (uuidHex : String) (prefer_utf8 : Bool) (st : Ledger) (p : PyPath) :
    ∀ e ∈ (upload_file renv nfkd uuidHex prefer_utf8 st p).2.2.1,
      ∃ pa na, e = REvent.uploadCall pa na := by
  have hfresh : ∀ e ∈ (upload_fresh renv nfkd uuidHex prefer_utf8 st p).2.2.1,
      ∃ pa na, e = REvent.uploadCall pa na := by
    intro e he
    unfold upload_fresh at he
    cases hstage : uploadNameStage renv nfkd uuidHex prefer_utf8 p with
    | mk res evs =>
      rw [hstage] at he
      have hst := uploadNameStage_events renv nfkd uuidHex prefer_utf8 p
      rw [hstage] at hst
      cases res with
      | error msg =>
        have he2 : e ∈ evs := he
        exact hst e he2
      | ok rname =>
        have he2 : e ∈ evs := he
        exact hst e he2
  intro e he
  cases hl : lookup st p.resolved with
  | some e0 =>
    rw [upload_file_lookup_some renv nfkd uuidHex prefer_utf8 st p e0 hl] at he
    by_cases ht : fidTruthy e0 = true
    · rw [if_pos ht] at he
      have he2 : e ∈ ([] : List REvent) := he
      simp at he2
    · rw [if_neg ht] at he
      exact hfresh e he
  | none =>
    rw [upload_file_lookup_none renv nfkd uuidHex prefer_utf8 st p hl] at he
    exact hfresh e he

theorem prepareStepRest_events (renv : RemoteEnv) (ienv : ImportEnv)
    (nfkd : String → String) (uuidHex : String) (prefer_utf8 : Bool) (fuel : Nat)
    (store_name : String) (st : Ledger) (p : PyPath) :
    ∀ e ∈ (prepareStepRest renv ienv nfkd uuidHex prefer_utf8 fuel store_name st p).2,
      isLoopEvent e = true ∧ importCallOk e = true := by
  intro e he
  unfold prepareStepRest at he
  have hupl := upload_file_events renv nfkd uuidHex prefer_utf8 st p
  cases hu : upload_file renv nfkd uuidHex prefer_utf8 st p with
  | mk res rest =>
    obtain ⟨st1, evs, sv⟩ := rest
    rw [hu] at he hupl
    have hevs : ∀ e ∈ evs, isLoopEvent e = true ∧ importCallOk e = true := by
      intro e2 he2
      obtain ⟨pa, na, rfl⟩ := hupl e2 he2
      exact ⟨rfl, rfl⟩
    cases res with
    | error msg =>
      have he2 : e ∈ evs := he
      exact hevs e he2
    | ok info =>
      have he3 : e ∈ (match info.file_id with
          | none => (st1, evs)
          | some fid =>
            if fid = "" then (st1, evs)
            else (st1, evs ++ REvent.importAttempt fid ::
              (import_file_to_store ienv fuel store_name fid).2)).2 := he
      cases hf : info.file_id with
      | none =>
        rw [hf] at he3
        have he2 : e ∈ evs := he3
        exact hevs e he2
      | some fid =>
        rw [hf] at he3
        have he4 : e ∈ (if fid = "" then (st1, evs)
            else (st1, evs ++ REvent.importAttempt fid ::
              (import_file_to_store ienv fuel store_name fid).2)).2 := he3
        by_cases hz : fid = ""
        · rw [if_pos hz] at he4
          have he2 : e ∈ evs := he4
          exact hevs e he2
        · rw [if_neg hz] at he4
          have he2 : e ∈ evs ++ REvent.importAttempt fid ::
              (import_file_to_store ienv fuel store_name fid).2 := he4
          rcases List.mem_append.mp he2 with h | h
          · exact hevs e h
          · rcases List.mem_cons.mp h with rfl | h3
            · exact ⟨rfl, rfl⟩
            · exact import_events_ok ienv fuel store_name fid e h3

theorem prepareStep_events (renv : RemoteEnv) (ienv : ImportEnv)
    (nfkd : String → String) (uuidHex : String) (prefer_utf8 : Bool) (fuel : Nat)
    (store_name : String) (st : Ledger) (p : PyPath) :
    ∀ e ∈ (prepareStep renv ienv nfkd uuidHex prefer_utf8 fuel store_name st p).2,
      isLoopEvent e = true ∧ importCallOk e = true := by
  intro e he
  have he2 : e ∈ REvent.uploadAttempt p.resolved ::
      (prepareStepRest renv ienv nfkd uuidHex prefer_utf8 fuel store_name st p).2 := he
  rcases List.mem_cons.mp he2 with rfl | h2
  · exact ⟨rfl, rfl⟩
  · exact prepareStepRest_events renv ienv nfkd uuidHex prefer_utf8 fuel store_name st p e h2

theorem prepareLoop_events (renv : RemoteEnv) (ienv : ImportEnv)
    (nfkd : String → String) (uuidHex : String) (prefer_utf8 : Bool) (fuel : Nat)
    (store_name : String) :
    ∀ (files : List PyPath) (st : Ledger),
      ∀ e ∈ (prepareLoop renv ienv nfkd uuidHex prefer_utf8 fuel store_name files st).2,
        isLoopEvent e = true ∧ importCallOk e = true := by
  intro files
  induction files with
  | nil =>
    intro st e he
    have he2 : e ∈ ([] : List REvent) := he
    simp at he2
  | cons p rest ih =>
    intro st e he
    have he2 : e ∈ (prepareStep renv ienv nfkd uuidHex prefer_utf8 fuel store_name st p).2 ++
        (prepareLoop renv ienv nfkd uuidHex prefer_utf8 fuel store_name rest
          (prepareStep renv ienv nfkd uuidHex prefer_utf8 fuel store_name st p).1).2 := he
    rcases List.mem_append.mp he2 with h | h
    · exact prepareStep_events renv ienv nfkd uuidHex prefer_utf8 fuel store_name st p e h
    · exact ih _ e h

theorem prepareLoop_uploadAttempt (renv : RemoteEnv) (ienv : ImportEnv)
    (nfkd : String → String) (uuidHex : String) (prefer_utf8 : Bool) (fuel : Nat)
    (store_name : String) :
    ∀ (files : List PyPath) (st : Ledger) (p : PyPath), p ∈ files →
      REvent.uploadAttempt p.resolved ∈
        (prepareLoop renv ienv nfkd uuidHex prefer_utf8 fuel store_name files st).2 := by
  intro files
  induction files with
  | nil =>
    intro st p h
    cases h
  | cons q rest ih =>
    intro st p hp
    have hsplit : (prepareLoop renv ienv nfkd uuidHex prefer_utf8 fuel store_name
        (q :: rest) st).2 =
        (prepareStep renv ienv nfkd uuidHex prefer_utf8 fuel store_name st q).2 ++
        (prepareLoop renv ienv nfkd uuidHex prefer_utf8 fuel store_name rest
          (prepareStep renv ienv nfkd uuidHex prefer_utf8 fuel store_name st q).1).2 := rfl
    rw [hsplit]
    rcases List.mem_cons.mp hp with rfl | h2
    · exact List.mem_append_left _ (List.mem_cons_self _ _)
    · exact List.mem_append_right _ (ih _ p h2)

theorem prepare_resolved (senv : StoreEnv) (renv : RemoteEnv) (ienv : ImportEnv)
    (nfkd : String → String) (uuidHex : String) (prefer_utf8 : Bool) (fuel : Nat)
    (display_name : String) (files : List PyPath) (st : Ledger) (store : StoreRef)
    (h : create_or_get_file_search_store senv nfkd uuidHex prefer_utf8 display_name =
      .ok store) :
    prepare senv renv ienv nfkd uuidHex prefer_utf8 fuel display_name files st =
      if files.isEmpty then .ok (store, st, [.resolveStore store.name])
      else .ok (store,
        (prepareLoop renv ienv nfkd uuidHex prefer_utf8 fuel store.name files
          (clean_state st).1).1,
        .resolveStore store.name :: .cleanState ::
          (prepareLoop renv ienv nfkd uuidHex prefer_utf8 fuel store.name files
            (clean_state st).1).2) := by
  unfold prepare
  rw [h]

theorem isLoopEvent_spec (e : REvent) (h : isLoopEvent e = true) :
    (∀ n, e ≠ REvent.resolveStore n) ∧ e ≠ REvent.cleanState := by
  cases e <;> simp_all [isLoopEvent]

/-- C6: with a non-empty listing and a resolved store, `prepare` returns
that store, and the `upload_file` call is reached for every listed file
(whatever the upload/import oracles do — in particular when some file's
upload raises); moreover each loop iteration whose upload produced a
truthy id reaches the import call.  No per-file exception aborts the
batch. -/
theorem prepare_batch_resilient (senv : StoreEnv) (renv : RemoteEnv) (ienv : ImportEnv)
    (nfkd : String → String) (uuidHex : String) (prefer_utf8 : Bool) (fuel : Nat)
    (display_name : String) (files : List PyPath) (st : Ledger) (store : StoreRef)
    (hf : files ≠ [])
    (hs : create_or_get_file_search_store senv nfkd uuidHex prefer_utf8 display_name =
      .ok store) :
    prepStore (prepare senv renv ienv nfkd uuidHex prefer_utf8 fuel display_name files st) =
      some store ∧
    (∀ p ∈ files, REvent.uploadAttempt p.resolved ∈
      prepEvents (prepare senv renv ienv nfkd uuidHex prefer_utf8 fuel display_name files st)) ∧
    (∀ (st0 : Ledger) (p : PyPath) (info : LedgerEntry) (fid : String),
      (upload_file renv nfkd uuidHex prefer_utf8 st0 p).1 = .ok info →
      info.file_id = some fid → fid ≠ "" →
      REvent.importAttempt fid ∈
        (prepareStep renv ienv nfkd uuidHex prefer_utf8 fuel store.name st0 p).2) := by
  have hee : files.isEmpty = false := by
    cases files with
    | nil => exact absurd rfl hf
    | cons a b => rfl
  rw [prepare_resolved senv renv ienv nfkd uuidHex prefer_utf8 fuel display_name files st
    store hs, hee]
  refine ⟨rfl, ?_, ?_⟩
  · intro p hp
    simp only [Bool.false_eq_true, if_false]
    have hmem := prepareLoop_uploadAttempt renv ienv nfkd uuidHex prefer_utf8 fuel
      store.name files (clean_state st).1 p hp
    exact List.mem_cons_of_mem _ (List.mem_cons_of_mem _ hmem)
  · intro st0 p info fid h1 h2 h3
    have he2 : (prepareStep renv ienv nfkd uuidHex prefer_utf8 fuel store.name st0 p).2 =
        REvent.uploadAttempt p.resolved ::
        (prepareStepRest renv ienv nfkd uuidHex prefer_utf8 fuel store.name st0 p).2 := rfl
    rw [he2]
    apply List.mem_cons_of_mem
    unfold prepareStepRest
    cases hu : upload_file renv nfkd uuidHex prefer_utf8 st0 p with
    | mk res rest =>
      obtain ⟨st1, evs, sv⟩ := rest
      rw [hu] at h1
      have hres : res = .ok info := h1
      subst hres
      show REvent.importAttempt fid ∈ (match info.file_id with
        | none => (st1, evs)
        | some fid2 =>
          if fid2 = "" then (st1, evs)
          else (st1, evs ++ REvent.importAttempt fid2 ::
            (import_file_to_store ienv fuel store.name fid2).2)).2
      rw [h2]
      show REvent.importAttempt fid ∈ (if fid = "" then (st1, evs)
        else (st1, evs ++ REvent.importAttempt fid ::
          (import_file_to_store ienv fuel store.name fid).2)).2
      rw [if_neg h3]
      exact List.mem_append_right _ (List.mem_cons_self _ _)

/-- C6 witness: three files where the upload of the second raises — the
store is still returned and the upload call is reached for all three. -/
theorem prepare_batch_resilient_witness :
    prepStore (prepare ⟨[⟨"stores/s1", "docs-file-search"⟩], fun _ => .error "unused"⟩
      ⟨fun pa _ => if pa == "/d/f2" then .error "boom" else .ok "files/abc"⟩
      ⟨fun _ _ => .ok ⟨true, 7⟩, fun op => .ok op⟩ (fun x => x) "0f" false 3
      "docs-file-search" [⟨"/d/f1", "f1.txt"⟩, ⟨"/d/f2", "f2.txt"⟩, ⟨"/d/f3", "f3.txt"⟩] []) =
      some ⟨"stores/s1", "docs-file-search"⟩ ∧
    (∀ p ∈ [(⟨"/d/f1", "f1.txt"⟩ : PyPath), ⟨"/d/f2", "f2.txt"⟩, ⟨"/d/f3", "f3.txt"⟩],
      REvent.uploadAttempt p.resolved ∈
        prepEvents (prepare ⟨[⟨"stores/s1", "docs-file-search"⟩], fun _ => .error "unused"⟩
          ⟨fun pa _ => if pa == "/d/f2" then .error "boom" else .ok "files/abc"⟩
          ⟨fun _ _ => .ok ⟨true, 7⟩, fun op => .ok op⟩ (fun x => x) "0f" false 3
          "docs-file-search" [⟨"/d/f1", "f1.txt"⟩, ⟨"/d/f2", "f2.txt"⟩, ⟨"/d/f3", "f3.txt"⟩] [])) ∧
    (∀ (st0 : Ledger) (p : PyPath) (info : LedgerEntry) (fid : String),
      (upload_file ⟨fun pa _ => if pa == "/d/f2" then .error "boom" else .ok "files/abc"⟩
        (fun x => x) "0f" false st0 p).1 = .ok info →
      info.file_id = some fid → fid ≠ "" →
      REvent.importAttempt fid ∈
        (prepareStep ⟨fun pa _ => if pa == "/d/f2" then .error "boom" else .ok "files/abc"⟩
          ⟨fun _ _ => .ok ⟨true, 7⟩, fun op => .ok op⟩ (fun x => x) "0f" false 3
          "stores/s1" st0 p).2) :=
  prepare_batch_resilient ⟨[⟨"stores/s1", "docs-file-search"⟩], fun _ => .error "unused"⟩
    ⟨fun pa _ => if pa == "/d/f2" then .error "boom" else .ok "files/abc"⟩
    ⟨fun _ _ => .ok ⟨true, 7⟩, fun op => .ok op⟩ (fun x => x) "0f" false 3
    "docs-file-search" [⟨"/d/f1", "f1.txt"⟩, ⟨"/d/f2", "f2.txt"⟩, ⟨"/d/f3", "f3.txt"⟩] []
    ⟨"stores/s1", "docs-file-search"⟩ (by decide) rfl

/-- C9 counterexample: on an empty listing, `prepare` returns right after
store resolution and the ledger prune does not run at all (no
`cleanState` event), so the prune does not happen in every invocation. -/
theorem prepare_empty_listing_skips_prune :
    prepare ⟨[⟨"stores/s1", "docs-file-search"⟩], fun _ => .error "unused"⟩
      ⟨fun _ _ => .error "unused"⟩ ⟨fun _ _ => .error "unused", fun _ => .error "unused"⟩
      (fun x => x) "0f" false 3 "docs-file-search" [] cleanLedger =
      .ok (⟨"stores/s1", "docs-file-search"⟩, cleanLedger, [.resolveStore "stores/s1"]) ∧
    REvent.cleanState ∉
      prepEvents (prepare ⟨[⟨"stores/s1", "docs-file-search"⟩], fun _ => .error "unused"⟩
        ⟨fun _ _ => .error "unused"⟩ ⟨fun _ _ => .error "unused", fun _ => .error "unused"⟩
        (fun x => x) "0f" false 3 "docs-file-search" [] cleanLedger) := by
  constructor
  · rfl
  · intro h
    have h2 : REvent.cleanState ∈ [REvent.resolveStore "stores/s1"] := h
    simp at h2

/-- C9 amended: in every invocation with a non-empty listing and a
resolved store, the event trace starts with store resolution followed
immediately by the ledger prune, and everything after is loop activity
(no further prune or resolution); every actual remote import call in
that tail carries a reference that passed the validity predicate, so an
invalid ledger entry is never used as an import input. -/
theorem prepare_prune_order (senv : StoreEnv) (renv : RemoteEnv) (ienv : ImportEnv)
    (nfkd : String → String) (uuidHex : String) (prefer_utf8 : Bool) (fuel : Nat)
    (display_name : String) (files : List PyPath) (st : Ledger) (store : StoreRef)
    (hf : files ≠ [])
    (hs : create_or_get_file_search_store senv nfkd uuidHex prefer_utf8 display_name =
      .ok store) :
    ∃ tl, prepEvents (prepare senv renv ienv nfkd uuidHex prefer_utf8 fuel display_name
        files st) = REvent.resolveStore store.name :: REvent.cleanState :: tl ∧
      (∀ e ∈ tl, (∀ n, e ≠ REvent.resolveStore n) ∧ e ≠ REvent.cleanState) ∧
      (∀ sn r, REvent.importCall sn r ∈ tl → is_valid_file_id (.str r) = true) := by
  have hee : files.isEmpty = false := by
    cases files with
    | nil => exact absurd rfl hf
    | cons a b => rfl
  refine ⟨(prepareLoop renv ienv nfkd uuidHex prefer_utf8 fuel store.name files
    (clean_state st).1).2, ?_, ?_, ?_⟩
  · rw [prepare_resolved senv renv ienv nfkd uuidHex prefer_utf8 fuel display_name files st
      store hs, hee]
    rfl
  · intro e he
    exact isLoopEvent_spec e
      (prepareLoop_events renv ienv nfkd uuidHex prefer_utf8 fuel store.name files
        (clean_state st).1 e he).1
  · intro sn r hmem
    exact (prepareLoop_events renv ienv nfkd uuidHex prefer_utf8 fuel store.name files
      (clean_state st).1 _ hmem).2

/-- C9 amended witness: a concrete non-empty run whose trace starts with
resolution then prune. -/
theorem prepare_prune_order_witness :
    ∃ tl, prepEvents (prepare ⟨[⟨"stores/s1", "docs-file-search"⟩], fun _ => .error "unused"⟩
        ⟨fun _ _ => .ok "files/abc"⟩ ⟨fun _ _ => .ok ⟨true, 7⟩, fun op => .ok op⟩
        (fun x => x) "0f" false 3 "docs-file-search" [⟨"/d/f1", "f1.txt"⟩] exampleLedger) =
        REvent.resolveStore "stores/s1" :: REvent.cleanState :: tl ∧
      (∀ e ∈ tl, (∀ n, e ≠ REvent.resolveStore n) ∧ e ≠ REvent.cleanState) ∧
      (∀ sn r, REvent.importCall sn r ∈ tl → is_valid_file_id (.str r) = true) :=
  prepare_prune_order ⟨[⟨"stores/s1", "docs-file-search"⟩], fun _ => .error "unused"⟩
    ⟨fun _ _ => .ok "files/abc"⟩ ⟨fun _ _ => .ok ⟨true, 7⟩, fun op => .ok op⟩
    (fun x => x) "0f" false 3 "docs-file-search" [⟨"/d/f1", "f1.txt"⟩] exampleLedger
    ⟨"stores/s1", "docs-file-search"⟩ (by decide) rfl

/-! ### The persisted ledger file: `_save_state` / `_load_state`

`_save_state` writes `json.dumps(self.state, indent=2,
ensure_ascii=False)` in UTF-8; `_load_state` reads the text back with
`json.loads` (any failure yielding an empty ledger).  Both are modelled
at the level of Unicode text (UTF-8 encoding of a valid Unicode string
round-trips byte-for-byte, so nothing is lost by staying at text level).
The parser below implements `json.loads` on the fragment `json.dumps`
can produce for a ledger: an object of objects of strings, with
whitespace skipping, full string-escape handling, and last-wins
duplicate keys (`dictInsert`).  Surrogate-pair recombination of
`\uXXXX` escapes is not modelled (the encoder never emits them for
code points the ledger can hold). -/

/-- The `{` character (written via its code to keep braces out of
string literals). -/
def lbrace : Char := Char.ofNat 123

/-- The `}` character. -/
def rbrace : Char := Char.ofNat 125

/-- Lowercase hex digit, as `"%04x"` formatting uses. -/
def hexDigitChar (n : Nat) : Char :=
  if n < 10 then Char.ofNat (48 + n) else Char.ofNat (87 + n)

/-- `json.dumps` escaping of one character with `ensure_ascii=False`:
escape the quote, the backslash and control characters (short escapes
for backspace, tab, newline, formfeed, carriage return; `\u00XX` for
the rest), and pass everything else — including non-ASCII — through
verbatim. -/
def jEscChar (c : Char) : List Char :=
  if c == '"' then ['\\', '"']
  else if c == '\\' then ['\\', '\\']
  else if c == Char.ofNat 8 then ['\\', 'b']
  else if c == '\t' then ['\\', 't']
  else if c == '\n' then ['\\', 'n']
  else if c == Char.ofNat 12 then ['\\', 'f']
  else if c == '\r' then ['\\', 'r']
  else if c.toNat < 32 then
    ['\\', 'u', '0', '0', hexDigitChar (c.toNat / 16), hexDigitChar (c.toNat % 16)]
  else [c]

/-- Escape a whole string body. -/
def escBody : List Char → List Char
  | [] => []
  | c :: rest => jEscChar c ++ escBody rest

/-- A JSON string literal. -/
def encString (l : List Char) : List Char :=
  '"' :: (escBody l ++ ['"'])

/-- Join with a separator (the `",\n"` between container items). -/
def joinSep (sep : List Char) : List (List Char) → List Char
  | [] => []
  | [a] => a
  | a :: b :: rest => a ++ (sep ++ joinSep sep (b :: rest))

/-- The fields of an entry in the order `upload_file` writes them; a
`none` field is simply absent from the dict. -/
def entryFields (v : LedgerEntry) : List (List Char × List Char) :=
  (match v.file_id with
   | some s => [("file_id".toList, s.toList)] | none => []) ++
  (match v.file_name with
   | some s => [("file_name".toList, s.toList)] | none => []) ++
  (match v.original_file_name with
   | some s => [("original_file_name".toList, s.toList)] | none => []) ++
  (match v.safe_file_name with
   | some s => [("safe_file_name".toList, s.toList)] | none => [])

/-- One `"key": "value"` member line at the given indentation. -/
def encPairLine (indent : List Char) (kv : List Char × List Char) : List Char :=
  indent ++ (encString kv.1 ++ (':' :: ' ' :: encString kv.2))

/-- An entry object as `json.dumps(..., indent=2)` renders it at depth
one: `{}` when empty, else members on their own lines at four spaces
with the closing brace at two. -/
def encEntry (v : LedgerEntry) : List Char :=
  match entryFields v with
  | [] => [lbrace, rbrace]
  | fs =>
    lbrace :: '\n' ::
      (joinSep [',', '\n'] (fs.map (encPairLine [' ', ' ', ' ', ' '])) ++
        ('\n' :: ' ' :: ' ' :: [rbrace]))

/-- One top-level `"path": {...}` line at two spaces. -/
def encTopLine (kv : String × LedgerEntry) : List Char :=
  ' ' :: ' ' :: (encString kv.1.toList ++ (':' :: ' ' :: encEntry kv.2))

/-- `json.dumps(state, indent=2, ensure_ascii=False)` for a ledger. -/
def dumpsLedger (st : Ledger) : List Char :=
  match st with
  | [] => [lbrace, rbrace]
  | _ => lbrace :: '\n' :: (joinSep [',', '\n'] (st.map encTopLine) ++ ('\n' :: [rbrace]))

/-- `FileSearchTool._save_state` (rag.py lines 69-71), as the text
written to `.file_index.json`. -/
def save_state (st : Ledger) : String :=
  String.mk (dumpsLedger st)

/-- JSON whitespace. -/
def isJsonWs (c : Char) : Bool :=
  c == ' ' || c == '\t' || c == '\n' || c == '\r'

/-- Skip insignificant whitespace, as `json.loads` does between tokens. -/
def skipWs (l : List Char) : List Char :=
  l.dropWhile isJsonWs

/-- Value of one hex digit. -/
def hexVal (c : Char) : Option Nat :=
  if '0' ≤ c && c ≤ '9' then some (c.toNat - 48)
  else if 'a' ≤ c && c ≤ 'f' then some (c.toNat - 87)
  else if 'A' ≤ c && c ≤ 'F' then some (c.toNat - 55)
  else none

/-- Value of a four-digit hex escape. -/
def hexVal4 (a b c d : Char) : Option Nat :=
  match hexVal a, hexVal b, hexVal c, hexVal d with
  | some x, some y, some z, some w => some (4096 * x + 256 * y + 16 * z + w)
  | _, _, _, _ => none

/-- Prepend a decoded character to a string-parse result. -/
def mapConsFst (c : Char) (o : Option (List Char × List Char)) :
    Option (List Char × List Char) :=
  o.map (fun sr => (c :: sr.1, sr.2))

/-- Parse a JSON string body after the opening quote: decoded
characters plus the input after the closing quote; unescaped control
characters and unknown escapes are rejected, as in `json.loads`.  The
fuel only bounds the recursion for Lean's sake: every step consumes at
least one character, so the `length + 1` fuel passed by `parseJString`
cannot run out before the real parser would stop. -/
def parseStringBodyF : Nat → List Char → Option (List Char × List Char)
  | 0, _ => none
  | _ + 1, [] => none
  | fuel + 1, c :: rest =>
    if c == '"' then some ([], rest)
    else if c == '\\' then
      match rest with
      | [] => none
      | e :: rest2 =>
        if e == '"' then mapConsFst '"' (parseStringBodyF fuel rest2)
        else if e == '\\' then mapConsFst '\\' (parseStringBodyF fuel rest2)
        else if e == '/' then mapConsFst '/' (parseStringBodyF fuel rest2)
        else if e == 'b' then mapConsFst (Char.ofNat 8) (parseStringBodyF fuel rest2)
        else if e == 'f' then mapConsFst (Char.ofNat 12) (parseStringBodyF fuel rest2)
        else if e == 'n' then mapConsFst '\n' (parseStringBodyF fuel rest2)
        else if e == 'r' then mapConsFst '\r' (parseStringBodyF fuel rest2)
        else if e == 't' then mapConsFst '\t' (parseStringBodyF fuel rest2)
        else if e == 'u' then
          match rest2 with
          | h1 :: h2 :: h3 :: h4 :: rest3 =>
            match hexVal4 h1 h2 h3 h4 with
            | some n => mapConsFst (Char.ofNat n) (parseStringBodyF fuel rest3)
            | none => none
          | _ => none
        else none
    else if c.toNat < 32 then none
    else mapConsFst c (parseStringBodyF fuel rest)

/-- Parse a string token: skip whitespace, expect a quote, read the
body. -/
def parseJString (l : List Char) : Option (List Char × List Char) :=
  match skipWs l with
  | c :: rest => if c == '"' then parseStringBodyF (rest.length + 1) rest else none
  | [] => none

/-- The entry with no fields. -/
def emptyEntry : LedgerEntry :=
  { file_id := none, file_name := none,
    original_file_name := none, safe_file_name := none }

/-- Assign one parsed member to the typed entry (last value wins, as in
a Python dict); a key outside the four the ledger uses is outside the
modelled fragment. -/
def setEntryField (e : LedgerEntry) (k v : List Char) : Option LedgerEntry :=
  if k = "file_id".toList then some { e with file_id := some (String.mk v) }
  else if k = "file_name".toList then some { e with file_name := some (String.mk v) }
  else if k = "original_file_name".toList then
    some { e with original_file_name := some (String.mk v) }
  else if k = "safe_file_name".toList then
    some { e with safe_file_name := some (String.mk v) }
  else none

/-- Member loop of an entry object, positioned at the first key (after
`{`).  The fuel only bounds the recursion for Lean's sake: every
successful iteration consumes at least one character, so the
`length + 1` fuel the callers pass can never run out before the real
parser would stop. -/
def parseEntryMembersF : Nat → LedgerEntry → List Char → Option (LedgerEntry × List Char)
  | 0, _, _ => none
  | fuel + 1, e, l =>
    match parseJString l with
    | none => none
    | some (k, r1) =>
      match skipWs r1 with
      | ':' :: r2 =>
        match parseJString r2 with
        | none => none
        | some (v, r3) =>
          match setEntryField e k v with
          | none => none
          | some e2 =>
            match skipWs r3 with
            | ',' :: r4 => parseEntryMembersF fuel e2 r4
            | c :: r4 => if c == rbrace then some (e2, r4) else none
            | [] => none
      | _ => none

/-- Parse one entry object: `{}` or `{ members }`. -/
def parseEntryObject (l : List Char) : Option (LedgerEntry × List Char) :=
  match skipWs l with
  | c :: rest =>
    if c == lbrace then
      match skipWs rest with
      | c2 :: rest2 =>
        if c2 == rbrace then some (emptyEntry, rest2)
        else parseEntryMembersF (rest.length + 1) emptyEntry rest
      | [] => none
    else none
  | [] => none

/-- Member loop of the top-level object: keys are paths, values entry
objects; repeated keys behave like repeated Python dict assignment. -/
def parseTopMembersF : Nat → Ledger → List Char → Option (Ledger × List Char)
  | 0, _, _ => none
  | fuel + 1, acc, l =>
    match parseJString l with
    | none => none
    | some (k, r1) =>
      match skipWs r1 with
      | ':' :: r2 =>
        match parseEntryObject r2 with
        | none => none
        | some (v, r3) =>
          match skipWs r3 with
          | ',' :: r4 => parseTopMembersF fuel (dictInsert acc (String.mk k) v) r4
          | c :: r4 =>
            if c == rbrace then some (dictInsert acc (String.mk k) v, r4) else none
          | [] => none
      | _ => none

/-- `json.loads` on the ledger fragment: one top-level object and
nothing but whitespace after it. -/
def loadsLedger (l : List Char) : Option Ledger :=
  match skipWs l with
  | c :: rest =>
    if c == lbrace then
      match skipWs rest with
      | c2 :: rest2 =>
        if c2 == rbrace then (if skipWs rest2 = [] then some [] else none)
        else
          match parseTopMembersF (rest.length + 1) [] rest with
          | some (st, r) => if skipWs r = [] then some st else none
          | none => none
      | [] => none
    else none
  | [] => none

/-- `FileSearchTool._load_state` (rag.py lines 60-67): a missing file or
any parse failure yields the empty ledger. -/
def load_state : Option String → Ledger
  | none => []
  | some s => (loadsLedger s.toList).getD []

theorem hexVal_hexDigitChar : ∀ m : Nat, m < 16 → hexVal (hexDigitChar m) = some m := by
  decide

theorem hexVal_zero : hexVal '0' = some 0 := rfl

theorem hexVal4_00 (hi lo : Nat) (hhi : hi < 16) (hlo : lo < 16) :
    hexVal4 '0' '0' (hexDigitChar hi) (hexDigitChar lo) = some (16 * hi + lo) := by
  unfold hexVal4
  rw [hexVal_zero, hexVal_hexDigitChar hi hhi, hexVal_hexDigitChar lo hlo]
  show some (4096 * 0 + 256 * 0 + 16 * hi + lo) = some (16 * hi + lo)
  exact congrArg some (by omega)

theorem parseStringBodyF_u (fuel : Nat) (hi lo : Nat) (hhi : hi < 16) (hlo : lo < 16)
    (tail : List Char) :
    parseStringBodyF (fuel + 1) ('\\' :: 'u' :: '0' :: '0' ::
        hexDigitChar hi :: hexDigitChar lo :: tail) =
      mapConsFst (Char.ofNat (16 * hi + lo)) (parseStringBodyF fuel tail) := by
  show (match hexVal4 '0' '0' (hexDigitChar hi) (hexDigitChar lo) with
        | some n => mapConsFst (Char.ofNat n) (parseStringBodyF fuel tail)
        | none => none) =
      mapConsFst (Char.ofNat (16 * hi + lo)) (parseStringBodyF fuel tail)
  rw [hexVal4_00 hi lo hhi hlo]

theorem parseStringBodyF_plain (fuel : Nat) (c : Char) (l : List Char)
    (h1 : ¬ (c == '"') = true) (h2 : ¬ (c == '\\') = true) (h3 : ¬ c.toNat < 32) :
    parseStringBodyF (fuel + 1) (c :: l) = mapConsFst c (parseStringBodyF fuel l) := by
  rw [parseStringBodyF.eq_def]
  change (if (c == '"') = true then some ([], l)
      else if (c == '\\') = true then _
      else if c.toNat < 32 then none
      else mapConsFst c (parseStringBodyF fuel l)) =
    mapConsFst c (parseStringBodyF fuel l)
  rw [if_neg h1, if_neg h2, if_neg h3]

theorem parseStringBodyF_escBody :
    ∀ (s : List Char) (fuel : Nat) (rest : List Char), s.length < fuel →
      parseStringBodyF fuel (escBody s ++ '"' :: rest) = some (s, rest) := by
  intro s
  induction s with
  | nil =>
    intro fuel rest hfu
    cases fuel with
    | zero => omega
    | succ f => rfl
  | cons c s' ih =>
    intro fuel rest hfu
    cases fuel with
    | zero => omega
    | succ f =>
      have hf : s'.length < f := by
        simp only [List.length_cons] at hfu
        omega
      rw [escBody, List.append_assoc]
      unfold jEscChar
      by_cases h1 : (c == '"') = true
      · rw [if_pos h1]
        have hc : c = '"' := eq_of_beq h1
        subst hc
        show mapConsFst '"' (parseStringBodyF f (escBody s' ++ '"' :: rest)) =
          some ('"' :: s', rest)
        rw [ih f rest hf]
        rfl
      · rw [if_neg h1]
        by_cases h2 : (c == '\\') = true
        · rw [if_pos h2]
          have hc : c = '\\' := eq_of_beq h2
          subst hc
          show mapConsFst '\\' (parseStringBodyF f (escBody s' ++ '"' :: rest)) =
            some ('\\' :: s', rest)
          rw [ih f rest hf]
          rfl
        · rw [if_neg h2]
          by_cases h3 : (c == Char.ofNat 8) = true
          · rw [if_pos h3]
            have hc : c = Char.ofNat 8 := eq_of_beq h3
            subst hc
            show mapConsFst (Char.ofNat 8)
                (parseStringBodyF f (escBody s' ++ '"' :: rest)) =
              some (Char.ofNat 8 :: s', rest)
            rw [ih f rest hf]
            rfl
          · rw [if_neg h3]
            by_cases h4 : (c == '\t') = true
            · rw [if_pos h4]
              have hc : c = '\t' := eq_of_beq h4
              subst hc
              show mapConsFst '\t' (parseStringBodyF f (escBody s' ++ '"' :: rest)) =
                some ('\t' :: s', rest)
              rw [ih f rest hf]
              rfl
            · rw [if_neg h4]
              by_cases h5 : (c == '\n') = true
              · rw [if_pos h5]
                have hc : c = '\n' := eq_of_beq h5
                subst hc
                show mapConsFst '\n' (parseStringBodyF f (escBody s' ++ '"' :: rest)) =
                  some ('\n' :: s', rest)
                rw [ih f rest hf]
                rfl
              · rw [if_neg h5]
                by_cases h6 : (c == Char.ofNat 12) = true
                · rw [if_pos h6]
                  have hc : c = Char.ofNat 12 := eq_of_beq h6
                  subst hc
                  show mapConsFst (Char.ofNat 12)
                      (parseStringBodyF f (escBody s' ++ '"' :: rest)) =
                    some (Char.ofNat 12 :: s', rest)
                  rw [ih f rest hf]
                  rfl
                · rw [if_neg h6]
                  by_cases h7 : (c == '\r') = true
                  · rw [if_pos h7]
                    have hc : c = '\r' := eq_of_beq h7
                    subst hc
                    show mapConsFst '\r' (parseStringBodyF f (escBody s' ++ '"' :: rest)) =
                      some ('\r' :: s', rest)
                    rw [ih f rest hf]
                    rfl
                  · rw [if_neg h7]
                    by_cases h8 : c.toNat < 32
                    · rw [if_pos h8]
                      show parseStringBodyF (f + 1) ('\\' :: 'u' :: '0' :: '0' ::
                          hexDigitChar (c.toNat / 16) :: hexDigitChar (c.toNat % 16) ::
                          (escBody s' ++ '"' :: rest)) = some (c :: s', rest)
                      rw [parseStringBodyF_u f (c.toNat / 16) (c.toNat % 16)
                        (by omega) (by omega) (escBody s' ++ '"' :: rest), ih f rest hf]
                      show some (Char.ofNat (16 * (c.toNat / 16) + c.toNat % 16) :: s',
                          rest) = some (c :: s', rest)
                      have harith : 16 * (c.toNat / 16) + c.toNat % 16 = c.toNat := by
                        omega
                      rw [harith, Char.ofNat_toNat]
                    · rw [if_neg h8]
                      show parseStringBodyF (f + 1) (c :: (escBody s' ++ '"' :: rest)) =
                        some (c :: s', rest)
                      rw [parseStringBodyF_plain f c _ h1 h2 h8, ih f rest hf]
                      rfl

theorem skipWs_length_le (l : List Char) : (skipWs l).length ≤ l.length :=
  (List.dropWhile_sublist _).length_le

theorem skipWs_append_ws (w l : List Char) (hw : ∀ c ∈ w, isJsonWs c = true) :
    skipWs (w ++ l) = skipWs l := by
  induction w with
  | nil => rfl
  | cons c w' ih =>
    have hc : isJsonWs c = true := hw c (List.mem_cons_self _ _)
    show skipWs (c :: (w' ++ l)) = skipWs l
    unfold skipWs
    rw [List.dropWhile_cons, if_pos hc]
    exact ih (fun d hd => hw d (List.mem_cons_of_mem _ hd))

theorem skipWs_cons_not (c : Char) (l : List Char) (hc : isJsonWs c = false) :
    skipWs (c :: l) = c :: l := by
  unfold skipWs
  rw [List.dropWhile_cons, if_neg (by rw [hc]; exact Bool.false_ne_true)]

theorem jEscChar_length_pos (c : Char) : 1 ≤ (jEscChar c).length := by
  unfold jEscChar
  repeat' split
  all_goals simp

theorem escBody_length_ge (s : List Char) : s.length ≤ (escBody s).length := by
  induction s with
  | nil => simp [escBody]
  | cons c s' ih =>
    rw [escBody, List.length_append, List.length_cons]
    have := jEscChar_length_pos c
    omega

theorem parseJString_enc (w s tail : List Char) (hw : ∀ c ∈ w, isJsonWs c = true) :
    parseJString (w ++ ('"' :: (escBody s ++ ('"' :: tail)))) = some (s, tail) := by
  unfold parseJString
  rw [skipWs_append_ws w _ hw, skipWs_cons_not '"' _ rfl]
  show parseStringBodyF ((escBody s ++ '"' :: tail).length + 1)
      (escBody s ++ '"' :: tail) = some (s, tail)
  apply parseStringBodyF_escBody
  rw [List.length_append]
  have := escBody_length_ge s
  omega

/-- Fold the parsed members over `setEntryField`, as the member loop
does. -/
def applyFields : LedgerEntry → List (List Char × List Char) → Option LedgerEntry
  | e, [] => some e
  | e, (k, v) :: fs =>
    match setEntryField e k v with
    | some e2 => applyFields e2 fs
    | none => none

theorem applyFields_entryFields (v : LedgerEntry) :
    applyFields emptyEntry (entryFields v) = some v := by
  obtain ⟨f1, f2, f3, f4⟩ := v
  cases f1 <;> cases f2 <;> cases f3 <;> cases f4 <;> rfl

theorem entryFields_nil (v : LedgerEntry) (h : entryFields v = []) :
    v = emptyEntry := by
  obtain ⟨f1, f2, f3, f4⟩ := v
  cases f1 <;> cases f2 <;> cases f3 <;> cases f4 <;> simp_all [entryFields, emptyEntry]

theorem joinSep_length_ge (sep : List Char) :
    ∀ (ls : List (List Char)), (∀ x ∈ ls, 1 ≤ x.length) →
      ls.length ≤ (joinSep sep ls).length := by
  intro ls
  induction ls with
  | nil => intro _; simp [joinSep]
  | cons a rest ih =>
    intro hall
    cases rest with
    | nil =>
      have := hall a (List.mem_cons_self _ _)
      simp only [joinSep, List.length_singleton]
      omega
    | cons b rest2 =>
      have h1 := hall a (List.mem_cons_self _ _)
      have h2 := ih (fun x hx => hall x (List.mem_cons_of_mem _ hx))
      simp only [List.length_cons] at h2
      rw [joinSep]
      simp only [List.length_cons, List.length_append]
      omega

theorem encPairLine_length_pos (ind : List Char) (kv : List Char × List Char) :
    1 ≤ (encPairLine ind kv).length := by
  unfold encPairLine encString
  simp only [List.length_append, List.length_cons]
  omega

theorem encTopLine_length_pos (kv : String × LedgerEntry) :
    1 ≤ (encTopLine kv).length := by
  unfold encTopLine
  simp only [List.length_append, List.length_cons]
  omega

theorem ws_append {w1 w2 : List Char} (h1 : ∀ c ∈ w1, isJsonWs c = true)
    (h2 : ∀ c ∈ w2, isJsonWs c = true) : ∀ c ∈ w1 ++ w2, isJsonWs c = true := by
  intro c hc
  rcases List.mem_append.mp hc with h | h
  · exact h1 c h
  · exact h2 c h

theorem ws_sp4 : ∀ c ∈ ([' ', ' ', ' ', ' '] : List Char), isJsonWs c = true := by
  decide

theorem applyFields_cons_some {e0 e' e2 : LedgerEntry} {k v : List Char}
    {fs : List (List Char × List Char)}
    (hsf : setEntryField e0 k v = some e2)
    (happ : applyFields e0 ((k, v) :: fs) = some e') :
    applyFields e2 fs = some e' := by
  rw [applyFields, hsf] at happ
  exact happ

theorem parseEntryMembersF_enc :
    ∀ (fs : List (List Char × List Char)) (fuel : Nat) (e0 e' : LedgerEntry)
      (w tail : List Char),
      fs.length ≤ fuel →
      (∀ c ∈ w, isJsonWs c = true) →
      fs ≠ [] →
      applyFields e0 fs = some e' →
      parseEntryMembersF fuel e0
        (w ++ (joinSep [',', '\n'] (fs.map (encPairLine [' ', ' ', ' ', ' '])) ++
          ('\n' :: ' ' :: ' ' :: rbrace :: tail))) = some (e', tail) := by
  intro fs
  induction fs with
  | nil =>
    intro fuel e0 e' w tail hfu hw hne happ
    exact absurd rfl hne
  | cons a fs' ih =>
    intro fuel e0 e' w tail hfu hw hne happ
    obtain ⟨k, v⟩ := a
    cases fuel with
    | zero => simp at hfu
    | succ f =>
      cases hsf : setEntryField e0 k v with
      | none =>
        rw [applyFields, hsf] at happ
        cases happ
      | some e2 =>
        have happ2 : applyFields e2 fs' = some e' := applyFields_cons_some hsf happ
        cases fs' with
        | nil =>
          have he2 : e2 = e' := by
            rw [applyFields] at happ2
            injection happ2
          subst he2
          have hL : w ++ (joinSep [',', '\n']
                (((k, v) :: []).map (encPairLine [' ', ' ', ' ', ' '])) ++
                ('\n' :: ' ' :: ' ' :: rbrace :: tail)) =
              (w ++ [' ', ' ', ' ', ' ']) ++ ('"' :: (escBody k ++ ('"' ::
                (':' :: ' ' :: ('"' :: (escBody v ++ ('"' ::
                  ('\n' :: ' ' :: ' ' :: rbrace :: tail)))))))) := by
            simp [joinSep, encPairLine, encString, List.append_assoc]
          rw [hL]
          have hj1 := parseJString_enc (w ++ [' ', ' ', ' ', ' ']) k
            (':' :: ' ' :: ('"' :: (escBody v ++ ('"' ::
              ('\n' :: ' ' :: ' ' :: rbrace :: tail)))))
            (ws_append hw ws_sp4)
          have hws1 : skipWs (':' :: ' ' :: ('"' :: (escBody v ++ ('"' ::
              ('\n' :: ' ' :: ' ' :: rbrace :: tail))))) =
              ':' :: ' ' :: ('"' :: (escBody v ++ ('"' ::
              ('\n' :: ' ' :: ' ' :: rbrace :: tail)))) :=
            skipWs_cons_not ':' _ rfl
          have hj2 : parseJString (' ' :: ('"' :: (escBody v ++ ('"' ::
              ('\n' :: ' ' :: ' ' :: rbrace :: tail))))) =
              some (v, '\n' :: ' ' :: ' ' :: rbrace :: tail) :=
            parseJString_enc [' '] v ('\n' :: ' ' :: ' ' :: rbrace :: tail) (by decide)
          have hws2 : skipWs ('\n' :: ' ' :: ' ' :: rbrace :: tail) =
              rbrace :: tail := by
            have h0 := skipWs_append_ws ['\n', ' ', ' '] (rbrace :: tail) (by decide)
            rw [skipWs_cons_not rbrace tail rfl] at h0
            exact h0
          rw [parseEntryMembersF.eq_def]
          simp only [hj1, hws1, hj2, hsf, hws2]
          rfl
        | cons b fs'' =>
          have hL : w ++ (joinSep [',', '\n']
                (((k, v) :: b :: fs'').map (encPairLine [' ', ' ', ' ', ' '])) ++
                ('\n' :: ' ' :: ' ' :: rbrace :: tail)) =
              (w ++ [' ', ' ', ' ', ' ']) ++ ('"' :: (escBody k ++ ('"' ::
                (':' :: ' ' :: ('"' :: (escBody v ++ ('"' :: (',' :: '\n' ::
                  (joinSep [',', '\n'] ((b :: fs'').map (encPairLine [' ', ' ', ' ', ' '])) ++
                    ('\n' :: ' ' :: ' ' :: rbrace :: tail)))))))))) := by
            simp [joinSep, encPairLine, encString, List.append_assoc]
          rw [hL]
          have hj1 := parseJString_enc (w ++ [' ', ' ', ' ', ' ']) k
            (':' :: ' ' :: ('"' :: (escBody v ++ ('"' :: (',' :: '\n' ::
              (joinSep [',', '\n'] ((b :: fs'').map (encPairLine [' ', ' ', ' ', ' '])) ++
                ('\n' :: ' ' :: ' ' :: rbrace :: tail)))))))
            (ws_append hw ws_sp4)
          have hws1 : skipWs (':' :: ' ' :: ('"' :: (escBody v ++ ('"' :: (',' :: '\n' ::
              (joinSep [',', '\n'] ((b :: fs'').map (encPairLine [' ', ' ', ' ', ' '])) ++
                ('\n' :: ' ' :: ' ' :: rbrace :: tail))))))) =
              ':' :: ' ' :: ('"' :: (escBody v ++ ('"' :: (',' :: '\n' ::
              (joinSep [',', '\n'] ((b :: fs'').map (encPairLine [' ', ' ', ' ', ' '])) ++
                ('\n' :: ' ' :: ' ' :: rbrace :: tail)))))) :=
            skipWs_cons_not ':' _ rfl
          have hj2 : parseJString (' ' :: ('"' :: (escBody v ++ ('"' :: (',' :: '\n' ::
              (joinSep [',', '\n'] ((b :: fs'').map (encPairLine [' ', ' ', ' ', ' '])) ++
                ('\n' :: ' ' :: ' ' :: rbrace :: tail))))))) =
              some (v, ',' :: '\n' ::
                (joinSep [',', '\n'] ((b :: fs'').map (encPairLine [' ', ' ', ' ', ' '])) ++
                  ('\n' :: ' ' :: ' ' :: rbrace :: tail))) :=
            parseJString_enc [' '] v (',' :: '\n' ::
              (joinSep [',', '\n'] ((b :: fs'').map (encPairLine [' ', ' ', ' ', ' '])) ++
                ('\n' :: ' ' :: ' ' :: rbrace :: tail))) (by decide)
          have hws2 : skipWs (',' :: '\n' ::
              (joinSep [',', '\n'] ((b :: fs'').map (encPairLine [' ', ' ', ' ', ' '])) ++
                ('\n' :: ' ' :: ' ' :: rbrace :: tail))) =
              ',' :: '\n' ::
              (joinSep [',', '\n'] ((b :: fs'').map (encPairLine [' ', ' ', ' ', ' '])) ++
                ('\n' :: ' ' :: ' ' :: rbrace :: tail)) :=
            skipWs_cons_not ',' _ rfl
          have hrec : parseEntryMembersF f e2 ('\n' ::
              (joinSep [',', '\n'] ((b :: fs'').map (encPairLine [' ', ' ', ' ', ' '])) ++
                ('\n' :: ' ' :: ' ' :: rbrace :: tail))) = some (e', tail) := by
            have := ih f e2 e' ['\n'] tail
              (by simp only [List.length_cons] at hfu ⊢; omega)
              (by decide) (by simp) happ2
            exact this
          rw [parseEntryMembersF.eq_def]
          simp only [hj1, hws1, hj2, hsf, hws2]
          exact hrec

theorem skipWs_pairsBlock (k0 v0 : List Char)
    (fsr : List (List Char × List Char)) (Z : List Char) :
    ∃ y, skipWs ('\n' ::
        (joinSep [',', '\n'] (((k0, v0) :: fsr).map (encPairLine [' ', ' ', ' ', ' '])) ++ Z)) =
      '"' :: y := by
  cases fsr with
  | nil =>
    have hL : '\n' ::
        (joinSep [',', '\n'] ([(k0, v0)].map (encPairLine [' ', ' ', ' ', ' '])) ++ Z) =
        ['\n', ' ', ' ', ' ', ' '] ++ ('"' :: ((escBody k0 ++ ('"' ::
          (':' :: ' ' :: encString v0))) ++ Z)) := by
      simp [joinSep, encPairLine, encString, List.append_assoc]
    rw [hL, skipWs_append_ws _ _ (by decide), skipWs_cons_not '"' _ rfl]
    exact ⟨_, rfl⟩
  | cons b fsr' =>
    have hL : '\n' ::
        (joinSep [',', '\n'] (((k0, v0) :: b :: fsr').map (encPairLine [' ', ' ', ' ', ' '])) ++ Z) =
        ['\n', ' ', ' ', ' ', ' '] ++ ('"' :: ((escBody k0 ++ ('"' ::
          (':' :: ' ' :: (encString v0 ++ (',' :: '\n' ::
            joinSep [',', '\n'] ((b :: fsr').map (encPairLine [' ', ' ', ' ', ' '])))))))
          ++ Z)) := by
      simp [joinSep, encPairLine, encString, List.append_assoc]
    rw [hL, skipWs_append_ws _ _ (by decide), skipWs_cons_not '"' _ rfl]
    exact ⟨_, rfl⟩

theorem parseEntryObject_enc (w : List Char) (v : LedgerEntry) (tail : List Char)
    (hw : ∀ c ∈ w, isJsonWs c = true) :
    parseEntryObject (w ++ (encEntry v ++ tail)) = some (v, tail) := by
  cases hfs : entryFields v with
  | nil =>
    have hv : v = emptyEntry := entryFields_nil v hfs
    subst hv
    have hL : w ++ (encEntry emptyEntry ++ tail) = w ++ (lbrace :: (rbrace :: tail)) := rfl
    rw [hL]
    unfold parseEntryObject
    rw [skipWs_append_ws w _ hw, skipWs_cons_not lbrace _ rfl]
    show (if (lbrace == lbrace) = true then
        match skipWs (rbrace :: tail) with
        | c2 :: rest2 =>
          if (c2 == rbrace) = true then some (emptyEntry, rest2)
          else parseEntryMembersF ((rbrace :: tail).length + 1) emptyEntry (rbrace :: tail)
        | [] => none
      else none) = some (emptyEntry, tail)
    rw [if_pos (show (lbrace == lbrace) = true from rfl), skipWs_cons_not rbrace _ rfl]
    rfl
  | cons f0 fsrest =>
    obtain ⟨k0, v0⟩ := f0
    have hL : w ++ (encEntry v ++ tail) =
        w ++ (lbrace :: ('\n' ::
          (joinSep [',', '\n'] (((k0, v0) :: fsrest).map (encPairLine [' ', ' ', ' ', ' '])) ++
            ('\n' :: ' ' :: ' ' :: rbrace :: tail)))) := by
      rw [encEntry.eq_def, hfs]
      simp [List.append_assoc]
    rw [hL]
    unfold parseEntryObject
    rw [skipWs_append_ws w _ hw, skipWs_cons_not lbrace _ rfl]
    obtain ⟨y, hy⟩ := skipWs_pairsBlock k0 v0 fsrest
      ('\n' :: ' ' :: ' ' :: rbrace :: tail)
    show (if (lbrace == lbrace) = true then
        match skipWs ('\n' ::
          (joinSep [',', '\n'] (((k0, v0) :: fsrest).map (encPairLine [' ', ' ', ' ', ' '])) ++
            ('\n' :: ' ' :: ' ' :: rbrace :: tail))) with
        | c2 :: rest2 =>
          if (c2 == rbrace) = true then some (emptyEntry, rest2)
          else parseEntryMembersF (('\n' ::
            (joinSep [',', '\n'] (((k0, v0) :: fsrest).map (encPairLine [' ', ' ', ' ', ' '])) ++
              ('\n' :: ' ' :: ' ' :: rbrace :: tail))).length + 1) emptyEntry
            ('\n' ::
              (joinSep [',', '\n'] (((k0, v0) :: fsrest).map (encPairLine [' ', ' ', ' ', ' '])) ++
                ('\n' :: ' ' :: ' ' :: rbrace :: tail)))
        | [] => none
      else none) = some (v, tail)
    rw [if_pos (show (lbrace == lbrace) = true from rfl), hy]
    show (if ('"' == rbrace) = true then some (emptyEntry, y)
        else parseEntryMembersF (('\n' ::
          (joinSep [',', '\n'] (((k0, v0) :: fsrest).map (encPairLine [' ', ' ', ' ', ' '])) ++
            ('\n' :: ' ' :: ' ' :: rbrace :: tail))).length + 1) emptyEntry
          ('\n' ::
            (joinSep [',', '\n'] (((k0, v0) :: fsrest).map (encPairLine [' ', ' ', ' ', ' '])) ++
              ('\n' :: ' ' :: ' ' :: rbrace :: tail)))) = some (v, tail)
    rw [if_neg (by decide)]
    have hbound : ((k0, v0) :: fsrest).length ≤ ('\n' ::
        (joinSep [',', '\n'] (((k0, v0) :: fsrest).map (encPairLine [' ', ' ', ' ', ' '])) ++
          ('\n' :: ' ' :: ' ' :: rbrace :: tail))).length + 1 := by
      have hj := joinSep_length_ge [',', '\n']
        (((k0, v0) :: fsrest).map (encPairLine [' ', ' ', ' ', ' ']))
        (by
          intro x hx
          obtain ⟨kv, hkv, rfl⟩ := List.mem_map.mp hx
          exact encPairLine_length_pos _ kv)
      rw [List.length_map] at hj
      simp only [List.length_cons] at hj
      simp only [List.length_cons, List.length_append]
      omega
    have := parseEntryMembersF_enc ((k0, v0) :: fsrest)
      (('\n' ::
        (joinSep [',', '\n'] (((k0, v0) :: fsrest).map (encPairLine [' ', ' ', ' ', ' '])) ++
          ('\n' :: ' ' :: ' ' :: rbrace :: tail))).length + 1)
      emptyEntry v ['\n'] tail hbound (by decide) (by simp)
      (by rw [← hfs]; exact applyFields_entryFields v)
    exact this

theorem parseTopMembersF_enc :
    ∀ (st : Ledger) (fuel : Nat) (acc : Ledger) (w tail : List Char),
      st.length ≤ fuel →
      (∀ c ∈ w, isJsonWs c = true) →
      st ≠ [] →
      parseTopMembersF fuel acc
        (w ++ (joinSep [',', '\n'] (st.map encTopLine) ++ ('\n' :: rbrace :: tail))) =
      some (st.foldl (fun a kv => dictInsert a kv.1 kv.2) acc, tail) := by
  intro st
  induction st with
  | nil =>
    intro fuel acc w tail hfu hw hne
    exact absurd rfl hne
  | cons a st' ih =>
    intro fuel acc w tail hfu hw hne
    obtain ⟨k, v⟩ := a
    cases fuel with
    | zero => simp at hfu
    | succ f =>
      cases st' with
      | nil =>
        have hL : w ++ (joinSep [',', '\n'] ([(k, v)].map encTopLine) ++
              ('\n' :: rbrace :: tail)) =
            (w ++ [' ', ' ']) ++ ('"' :: (escBody k.toList ++ ('"' ::
              (':' :: ' ' :: (encEntry v ++ ('\n' :: rbrace :: tail)))))) := by
          simp [joinSep, encTopLine, encString, List.append_assoc]
        rw [hL]
        have hj1 := parseJString_enc (w ++ [' ', ' ']) k.toList
          (':' :: ' ' :: (encEntry v ++ ('\n' :: rbrace :: tail)))
          (ws_append hw (by decide))
        have hws1 : skipWs (':' :: ' ' :: (encEntry v ++ ('\n' :: rbrace :: tail))) =
            ':' :: ' ' :: (encEntry v ++ ('\n' :: rbrace :: tail)) :=
          skipWs_cons_not ':' _ rfl
        have hobj : parseEntryObject (' ' :: (encEntry v ++ ('\n' :: rbrace :: tail))) =
            some (v, '\n' :: rbrace :: tail) :=
          parseEntryObject_enc [' '] v ('\n' :: rbrace :: tail) (by decide)
        have hws2 : skipWs ('\n' :: rbrace :: tail) = rbrace :: tail := by
          have h0 := skipWs_append_ws ['\n'] (rbrace :: tail) (by decide)
          rw [skipWs_cons_not rbrace tail rfl] at h0
          exact h0
        rw [parseTopMembersF.eq_def]
        simp only [hj1, hws1, hobj, hws2]
        rfl
      | cons b st'' =>
        have hL : w ++ (joinSep [',', '\n'] (((k, v) :: b :: st'').map encTopLine) ++
              ('\n' :: rbrace :: tail)) =
            (w ++ [' ', ' ']) ++ ('"' :: (escBody k.toList ++ ('"' ::
              (':' :: ' ' :: (encEntry v ++ (',' :: '\n' ::
                (joinSep [',', '\n'] ((b :: st'').map encTopLine) ++
                  ('\n' :: rbrace :: tail)))))))) := by
          simp [joinSep, encTopLine, encString, List.append_assoc]
        rw [hL]
        have hj1 := parseJString_enc (w ++ [' ', ' ']) k.toList
          (':' :: ' ' :: (encEntry v ++ (',' :: '\n' ::
            (joinSep [',', '\n'] ((b :: st'').map encTopLine) ++
              ('\n' :: rbrace :: tail)))))
          (ws_append hw (by decide))
        have hws1 : skipWs (':' :: ' ' :: (encEntry v ++ (',' :: '\n' ::
            (joinSep [',', '\n'] ((b :: st'').map encTopLine) ++
              ('\n' :: rbrace :: tail))))) =
            ':' :: ' ' :: (encEntry v ++ (',' :: '\n' ::
            (joinSep [',', '\n'] ((b :: st'').map encTopLine) ++
              ('\n' :: rbrace :: tail)))) :=
          skipWs_cons_not ':' _ rfl
        have hobj : parseEntryObject (' ' :: (encEntry v ++ (',' :: '\n' ::
            (joinSep [',', '\n'] ((b :: st'').map encTopLine) ++
              ('\n' :: rbrace :: tail))))) =
            some (v, ',' :: '\n' ::
              (joinSep [',', '\n'] ((b :: st'').map encTopLine) ++
                ('\n' :: rbrace :: tail))) :=
          parseEntryObject_enc [' '] v (',' :: '\n' ::
            (joinSep [',', '\n'] ((b :: st'').map encTopLine) ++
              ('\n' :: rbrace :: tail))) (by decide)
        have hws2 : skipWs (',' :: '\n' ::
            (joinSep [',', '\n'] ((b :: st'').map encTopLine) ++
              ('\n' :: rbrace :: tail))) =
            ',' :: '\n' ::
            (joinSep [',', '\n'] ((b :: st'').map encTopLine) ++
              ('\n' :: rbrace :: tail)) :=
          skipWs_cons_not ',' _ rfl
        have hrec : parseTopMembersF f (dictInsert acc k v) ('\n' ::
            (joinSep [',', '\n'] ((b :: st'').map encTopLine) ++
              ('\n' :: rbrace :: tail))) =
            some ((b :: st'').foldl (fun a kv => dictInsert a kv.1 kv.2)
              (dictInsert acc k v), tail) := by
          have := ih f (dictInsert acc k v) ['\n'] tail
            (by simp only [List.length_cons] at hfu ⊢; omega)
            (by decide) (by simp)
          exact this
        rw [parseTopMembersF.eq_def]
        simp only [hj1, hws1, hobj, hws2]
        exact hrec

theorem dictInsert_fresh (acc : Ledger) (k : String) (v : LedgerEntry)
    (h : ∀ kv ∈ acc, kv.1 ≠ k) : dictInsert acc k v = acc ++ [(k, v)] := by
  unfold dictInsert
  rw [if_neg]
  intro hany
  obtain ⟨kv, hm, he⟩ := List.any_eq_true.mp hany
  exact h kv hm (by simpa using he)

theorem foldl_dictInsert (st : Ledger) :
    ∀ (acc : Ledger),
      (∀ k ∈ st.map (·.1), ∀ kv ∈ acc, kv.1 ≠ k) →
      (st.map (·.1)).Nodup →
      st.foldl (fun a kv => dictInsert a kv.1 kv.2) acc = acc ++ st := by
  induction st with
  | nil =>
    intro acc _ _
    simp
  | cons a st' ih =>
    obtain ⟨k, v⟩ := a
    intro acc hfresh hnd
    rw [List.map_cons, List.nodup_cons] at hnd
    rw [List.foldl_cons]
    have h1 : dictInsert acc k v = acc ++ [(k, v)] :=
      dictInsert_fresh acc k v (fun kv hm => hfresh k (by simp) kv hm)
    rw [h1]
    have hfresh2 : ∀ k2 ∈ st'.map (·.1), ∀ kv ∈ acc ++ [(k, v)], kv.1 ≠ k2 := by
      intro k2 hk2 kv hkv
      rcases List.mem_append.mp hkv with h | h
      · exact hfresh k2 (by simp [hk2]) kv h
      · have hkv2 : kv = (k, v) := List.mem_singleton.mp h
        subst hkv2
        intro he
        exact hnd.1 (he ▸ hk2)
    rw [ih (acc ++ [(k, v)]) hfresh2 hnd.2]
    simp

theorem skipWs_topBlock (k : String) (v : LedgerEntry) (str : List (String × LedgerEntry))
    (Z : List Char) :
    ∃ y, skipWs ('\n' ::
        (joinSep [',', '\n'] (((k, v) :: str).map encTopLine) ++ Z)) = '"' :: y := by
  cases str with
  | nil =>
    have hL : '\n' :: (joinSep [',', '\n'] ([(k, v)].map encTopLine) ++ Z) =
        ['\n', ' ', ' '] ++ ('"' :: ((escBody k.toList ++ ('"' ::
          (':' :: ' ' :: encEntry v))) ++ Z)) := by
      simp [joinSep, encTopLine, encString, List.append_assoc]
    rw [hL, skipWs_append_ws _ _ (by decide), skipWs_cons_not '"' _ rfl]
    exact ⟨_, rfl⟩
  | cons b str' =>
    have hL : '\n' :: (joinSep [',', '\n'] (((k, v) :: b :: str').map encTopLine) ++ Z) =
        ['\n', ' ', ' '] ++ ('"' :: ((escBody k.toList ++ ('"' ::
          (':' :: ' ' :: (encEntry v ++ (',' :: '\n' ::
            joinSep [',', '\n'] ((b :: str').map encTopLine)))))) ++ Z)) := by
      simp [joinSep, encTopLine, encString, List.append_assoc]
    rw [hL, skipWs_append_ws _ _ (by decide), skipWs_cons_not '"' _ rfl]
    exact ⟨_, rfl⟩

theorem loads_dumps (st : Ledger) (hnd : (st.map (·.1)).Nodup) :
    loadsLedger (dumpsLedger st) = some st := by
  cases st with
  | nil => rfl
  | cons a st' =>
    obtain ⟨k, v⟩ := a
    have hd : dumpsLedger ((k, v) :: st') =
        lbrace :: ('\n' :: (joinSep [',', '\n'] (((k, v) :: st').map encTopLine) ++
          ('\n' :: rbrace :: []))) := by
      simp [dumpsLedger]
    rw [hd]
    unfold loadsLedger
    rw [skipWs_cons_not lbrace _ rfl]
    obtain ⟨y, hy⟩ := skipWs_topBlock k v st' ('\n' :: rbrace :: [])
    show (if (lbrace == lbrace) = true then
        match skipWs ('\n' :: (joinSep [',', '\n'] (((k, v) :: st').map encTopLine) ++
          ('\n' :: rbrace :: []))) with
        | c2 :: rest2 =>
          if (c2 == rbrace) = true then
            (if skipWs rest2 = [] then some [] else none)
          else
            match parseTopMembersF (('\n' ::
                (joinSep [',', '\n'] (((k, v) :: st').map encTopLine) ++
                  ('\n' :: rbrace :: []))).length + 1) []
                ('\n' :: (joinSep [',', '\n'] (((k, v) :: st').map encTopLine) ++
                  ('\n' :: rbrace :: []))) with
            | some (st0, r) => if skipWs r = [] then some st0 else none
            | none => none
        | [] => none
      else none) = some ((k, v) :: st')
    rw [if_pos (show (lbrace == lbrace) = true from rfl), hy]
    show (if (('"' : Char) == rbrace) = true then
        (if skipWs y = [] then some [] else none)
      else
        match parseTopMembersF (('\n' ::
            (joinSep [',', '\n'] (((k, v) :: st').map encTopLine) ++
              ('\n' :: rbrace :: []))).length + 1) []
            ('\n' :: (joinSep [',', '\n'] (((k, v) :: st').map encTopLine) ++
              ('\n' :: rbrace :: []))) with
        | some (st0, r) => if skipWs r = [] then some st0 else none
        | none => none) = some ((k, v) :: st')
    rw [if_neg (show ¬ (('"' : Char) == rbrace) = true by decide)]
    have hbound : ((k, v) :: st').length ≤ ('\n' ::
        (joinSep [',', '\n'] (((k, v) :: st').map encTopLine) ++
          ('\n' :: rbrace :: []))).length + 1 := by
      have hj := joinSep_length_ge [',', '\n'] (((k, v) :: st').map encTopLine)
        (by
          intro x hx
          obtain ⟨kv, hkv, rfl⟩ := List.mem_map.mp hx
          exact encTopLine_length_pos kv)
      rw [List.length_map] at hj
      simp only [List.length_cons] at hj
      simp only [List.length_cons, List.length_append]
      omega
    have htop : parseTopMembersF (('\n' ::
        (joinSep [',', '\n'] (((k, v) :: st').map encTopLine) ++
          ('\n' :: rbrace :: []))).length + 1) []
        ('\n' :: (joinSep [',', '\n'] (((k, v) :: st').map encTopLine) ++
          ('\n' :: rbrace :: []))) =
        some (((k, v) :: st').foldl (fun a kv => dictInsert a kv.1 kv.2) [], []) :=
      parseTopMembersF_enc ((k, v) :: st')
        (('\n' :: (joinSep [',', '\n'] (((k, v) :: st').map encTopLine) ++
          ('\n' :: rbrace :: []))).length + 1) [] ['\n'] [] hbound (by decide) (by simp)
    rw [htop]
    have hfold : ((k, v) :: st').foldl (fun a kv => dictInsert a kv.1 kv.2) [] =
        (k, v) :: st' := by
      have := foldl_dictInsert ((k, v) :: st') [] (by intro k2 _ kv hkv; cases hkv) hnd
      simpa using this
    rw [hfold]
    rfl

/-- Points at which an entry stores a given string value. -/
def entryHasString (v : LedgerEntry) (s : String) : Prop :=
  v.file_id = some s ∨ v.file_name = some s ∨
  v.original_file_name = some s ∨ v.safe_file_name = some s

theorem jEscChar_eq_self (c : Char) (h : 128 ≤ c.toNat) : jEscChar c = [c] := by
  unfold jEscChar
  rw [if_neg (fun hb => by cases eq_of_beq hb; exact absurd h (by decide)),
    if_neg (fun hb => by cases eq_of_beq hb; exact absurd h (by decide)),
    if_neg (fun hb => by cases eq_of_beq hb; exact absurd h (by decide)),
    if_neg (fun hb => by cases eq_of_beq hb; exact absurd h (by decide)),
    if_neg (fun hb => by cases eq_of_beq hb; exact absurd h (by decide)),
    if_neg (fun hb => by cases eq_of_beq hb; exact absurd h (by decide)),
    if_neg (fun hb => by cases eq_of_beq hb; exact absurd h (by decide)),
    if_neg (by omega : ¬ c.toNat < 32)]

theorem mem_escBody {c : Char} (h : 128 ≤ c.toNat) :
    ∀ {l : List Char}, c ∈ l → c ∈ escBody l := by
  intro l
  induction l with
  | nil => intro hm; cases hm
  | cons d rest ih =>
    intro hm
    rw [escBody]
    rcases List.mem_cons.mp hm with rfl | hm2
    · rw [jEscChar_eq_self c h]
      exact List.mem_append_left _ (List.mem_singleton.mpr rfl)
    · exact List.mem_append_right _ (ih hm2)

theorem mem_encString {c : Char} {l : List Char} (h : 128 ≤ c.toNat) (hm : c ∈ l) :
    c ∈ encString l := by
  unfold encString
  exact List.mem_cons_of_mem _ (List.mem_append_left _ (mem_escBody h hm))

theorem mem_joinSep {c : Char} (sep : List Char) :
    ∀ (ls : List (List Char)) (x : List Char), x ∈ ls → c ∈ x → c ∈ joinSep sep ls := by
  intro ls
  induction ls with
  | nil => intro x hx _; cases hx
  | cons a rest ih =>
    intro x hx hc
    cases rest with
    | nil =>
      have hxa : x = a := List.mem_singleton.mp hx
      subst hxa
      exact hc
    | cons b rest2 =>
      rw [joinSep]
      rcases List.mem_cons.mp hx with rfl | hx2
      · exact List.mem_append_left _ hc
      · exact List.mem_append_right _
          (List.mem_append_right _ (ih x hx2 hc))

theorem entryFields_mem_of {v : LedgerEntry} {s : String} (h : entryHasString v s) :
    ∃ name, (name, s.toList) ∈ entryFields v := by
  unfold entryFields
  rcases h with hf | hf | hf | hf
  · exact ⟨"file_id".toList, by rw [hf]; simp⟩
  · exact ⟨"file_name".toList, by rw [hf]; simp⟩
  · exact ⟨"original_file_name".toList, by rw [hf]; simp⟩
  · exact ⟨"safe_file_name".toList, by rw [hf]; simp⟩

theorem mem_encEntry_of_field {c : Char} {v : LedgerEntry} {name slist : List Char}
    (hmem : (name, slist) ∈ entryFields v) (hc : c ∈ slist) (h : 128 ≤ c.toNat) :
    c ∈ encEntry v := by
  cases hfs : entryFields v with
  | nil =>
    rw [hfs] at hmem
    cases hmem
  | cons f0 fsrest =>
    rw [hfs] at hmem
    rw [encEntry.eq_def, hfs]
    refine List.mem_cons_of_mem _ (List.mem_cons_of_mem _ (List.mem_append_left _ ?_))
    refine mem_joinSep _ _ (encPairLine [' ', ' ', ' ', ' '] (name, slist)) ?_ ?_
    · exact List.mem_map_of_mem _ hmem
    · unfold encPairLine
      refine List.mem_append_right _ (List.mem_append_right _ ?_)
      exact List.mem_cons_of_mem _ (List.mem_cons_of_mem _ (mem_encString h hc))

theorem mem_dumps_of_top {c : Char} {st : Ledger} {kv : String × LedgerEntry}
    (hkv : kv ∈ st) (hc : c ∈ encTopLine kv) : c ∈ dumpsLedger st := by
  cases st with
  | nil => cases hkv
  | cons a st' =>
    have hd : dumpsLedger (a :: st') =
        lbrace :: ('\n' :: (joinSep [',', '\n'] ((a :: st').map encTopLine) ++
          ('\n' :: rbrace :: []))) := by
      simp [dumpsLedger]
    rw [hd]
    refine List.mem_cons_of_mem _ (List.mem_cons_of_mem _ (List.mem_append_left _ ?_))
    exact mem_joinSep _ _ (encTopLine kv) (List.mem_map_of_mem _ hkv) hc

/-- C8: saving the ledger and loading it back yields the same ledger
(whatever characters its keys or values contain), and every non-ASCII
character of a key or a stored string value appears verbatim in the
saved text (no escaping). -/
theorem state_roundtrip (st : Ledger) (hnd : (st.map (·.1)).Nodup) :
    load_state (some (save_state st)) = st ∧
    (∀ k v, (k, v) ∈ st →
      (∀ c ∈ k.toList, 128 ≤ c.toNat → c ∈ (save_state st).toList) ∧
      (∀ s, entryHasString v s →
        ∀ c ∈ s.toList, 128 ≤ c.toNat → c ∈ (save_state st).toList)) := by
  constructor
  · show (loadsLedger (dumpsLedger st)).getD [] = st
    rw [loads_dumps st hnd]
    rfl
  · intro k v hkv
    constructor
    · intro c hc h128
      show c ∈ dumpsLedger st
      refine mem_dumps_of_top hkv ?_
      unfold encTopLine
      exact List.mem_cons_of_mem _ (List.mem_cons_of_mem _
        (List.mem_append_left _ (mem_encString h128 hc)))
    · intro s hs c hc h128
      show c ∈ dumpsLedger st
      obtain ⟨name, hname⟩ := entryFields_mem_of hs
      refine mem_dumps_of_top hkv ?_
      unfold encTopLine
      refine List.mem_cons_of_mem _ (List.mem_cons_of_mem _
        (List.mem_append_right _ ?_))
      exact List.mem_cons_of_mem _ (List.mem_cons_of_mem _
        (mem_encEntry_of_field hname hc h128))

/-- A ledger with non-ASCII characters in its key and values. -/
def unicodeLedger : Ledger :=
  [("/docs/ấn.txt",
    { file_id := some "files/abc-1", file_name := some "files/abc-1",
      original_file_name := some "ấn.txt", safe_file_name := some "n-txt" })]

/-- C8 witness: the concrete non-ASCII ledger round-trips and its
non-ASCII characters appear verbatim in the saved text. -/
theorem state_roundtrip_witness :
    load_state (some (save_state unicodeLedger)) = unicodeLedger ∧
    (∀ k v, (k, v) ∈ unicodeLedger →
      (∀ c ∈ k.toList, 128 ≤ c.toNat → c ∈ (save_state unicodeLedger).toList) ∧
      (∀ s, entryHasString v s →
        ∀ c ∈ s.toList, 128 ≤ c.toNat → c ∈ (save_state unicodeLedger).toList)) :=
  state_roundtrip unicodeLedger (by decide)

end Rag
